import Mathlib

/-!
Verification of the repository state engine of the GIT_COMMAND_VISUALIZER
project (src/script.js, section GitState).  The JavaScript module state is
embedded as an explicit `GitState` record; JavaScript objects become
insertion-ordered association lists; the random sha generator becomes an
explicit argument of every operation that creates commits; thrown
exceptions become `Except.error` results paired with the state at the
moment of the throw.  The v3 source wraps every mutating operation with
`assertValidState` before and after the call; this is embedded by
`runChecked`.
-/

deriving instance DecidableEq for Except

namespace GitViz

/-- A commit record as stored in the `_commits` table of script.js. -/
structure Commit where
  sha : String
  message : String
  parents : List String
  timestamp : Nat
  branch : Option String
  isMerge : Bool := false
  rebased : Bool := false
  cherryPicked : Bool := false
  originalSha : Option String := none
deriving Repr, DecidableEq, Inhabited

/-- The module-level state of the GitState closure in script.js.
`head = none` stands for the JavaScript `null` that `_HEAD` holds before
`init`; branch values of `none` stand for branches mapped to `null`. -/
structure GitState where
  initialized : Bool
  commits : List (String × Commit)
  branches : List (String × Option String)
  head : Option String
  detached : Bool
  stash : List String
  tags : List (String × String)
  remote : List (String × String)
deriving Repr, DecidableEq

/-- Property lookup on a JavaScript object, modelled as the first match in
an insertion-ordered association list (`none` = `undefined`). -/
def lookup {α : Type} : List (String × α) → String → Option α
  | [], _ => none
  | (k, v) :: rest, key => if key = k then some v else lookup rest key

/-- Property assignment `obj[k] = v`: update in place when the key exists,
append otherwise. -/
def insertKV {α : Type} : List (String × α) → String → α → List (String × α)
  | [], k, v => [(k, v)]
  | (k0, v0) :: rest, k, v =>
    if k = k0 then (k0, v) :: rest else (k0, v0) :: insertKV rest k v

/-- `Object.keys`, in insertion order. -/
def keys {α : Type} (l : List (String × α)) : List String := l.map (fun kv => kv.1)

/-- JavaScript truthiness of a nullable string (`null`/`undefined` and the
empty string are falsy). -/
def truthyS : Option String → Bool
  | none => false
  | some s => !(s = "")

/-- The object key that `_HEAD` denotes: JavaScript coerces a `null`
property name to the string key `"null"`. -/
def headKey (s : GitState) : String := s.head.getD "null"

/-- `_currentSha()` from script.js: the detached sha, or the current
branch value coerced to `null` when falsy. -/
def currentSha (s : GitState) : Option String :=
  if s.detached then s.head
  else
    match lookup s.branches (headKey s) with
    | some (some t) => if t = "" then none else some t
    | _ => none

/-- `s.startsWith(p)` on the underlying character lists. -/
def chStarts : List Char → List Char → Bool
  | [], _ => true
  | _ :: _, [] => false
  | a :: as, b :: bs => a = b && chStarts as bs

def strStarts (s p : String) : Bool := chStarts p.data s.data

/-- Total number of parent edges in the table; used to bound the breadth
first walks, each of which visits every key at most once. -/
def parentsCount (l : List (String × Commit)) : Nat :=
  (l.map (fun kc => kc.2.parents.length)).sum

def bfsFuel (l : List (String × Commit)) (q : Nat) : Nat :=
  q + parentsCount l + l.length + 1

/-- The loop body of `_isAncestor`: breadth first search from the
descendant up the parent edges, looking for `anc`. -/
def isAncestorAux (commits : List (String × Commit)) (anc : String) :
    Nat → List String → List String → Bool
  | 0, _, _ => false
  | _ + 1, [], _ => false
  | fuel + 1, sha :: queue, visited =>
    if sha = "" || visited.contains sha then isAncestorAux commits anc fuel queue visited
    else if sha = anc then true
    else
      match lookup commits sha with
      | none => isAncestorAux commits anc fuel queue (sha :: visited)
      | some c => isAncestorAux commits anc fuel (queue ++ c.parents) (sha :: visited)

/-- `_isAncestor(ancestor, descendant)` from script.js. -/
def isAncestor (commits : List (String × Commit)) (anc desc : String) : Bool :=
  isAncestorAux commits anc (bfsFuel commits 1) [desc] []

/-- The loop body of `_getAllAncestors`: collects the visited set. -/
def getAllAncestorsAux (commits : List (String × Commit)) :
    Nat → List String → List String → List String
  | 0, _, set => set
  | _ + 1, [], set => set
  | fuel + 1, sha :: queue, set =>
    if sha = "" || set.contains sha then getAllAncestorsAux commits fuel queue set
    else
      match lookup commits sha with
      | none => getAllAncestorsAux commits fuel queue (sha :: set)
      | some c => getAllAncestorsAux commits fuel (queue ++ c.parents) (sha :: set)

/-- `_getAllAncestors(sha)` from script.js: every sha reachable from `sha`
by parent edges, itself included. -/
def getAllAncestors (commits : List (String × Commit)) (sha : String) : List String :=
  getAllAncestorsAux commits (bfsFuel commits 1) [sha] []

/-- The loop body of `_getCommitsSince`: breadth first search pruned at
the exclude set, collecting commits with `unshift` (so the final list is
oldest first). -/
def getCommitsSinceAux (commits : List (String × Commit)) (exclude : List String) :
    Nat → List String → List String → List Commit → List Commit
  | 0, _, _, res => res
  | _ + 1, [], _, res => res
  | fuel + 1, sha :: queue, visited, res =>
    if sha = "" || visited.contains sha || exclude.contains sha then
      getCommitsSinceAux commits exclude fuel queue visited res
    else
      match lookup commits sha with
      | none => getCommitsSinceAux commits exclude fuel queue (sha :: visited) res
      | some c =>
        getCommitsSinceAux commits exclude fuel
          (queue ++ c.parents.filter (fun p => !(exclude.contains p)))
          (sha :: visited) (c :: res)

/-- `_getCommitsSince(tipSha, excludeSet)` from script.js. -/
def getCommitsSince (commits : List (String × Commit)) (tip : String)
    (exclude : List String) : List Commit :=
  getCommitsSinceAux commits exclude (bfsFuel commits 1) [tip] [] []

/-- `_walkBack(sha, steps)` from script.js: follow first parents. -/
def walkBack (commits : List (String × Commit)) : Option String → Nat → Option String
  | cur, 0 => cur
  | none, _ + 1 => none
  | some c, n + 1 =>
    match lookup commits c with
    | none => none
    | some cc =>
      match cc.parents with
      | [] => none
      | p :: _ => walkBack commits (some p) n

/-- The loop body of `log`: breadth first walk gathering up to `limit`
commits in visitation order. -/
def logAux (commits : List (String × Commit)) (limit : Nat) :
    Nat → List String → List String → List Commit → List Commit
  | 0, _, _, res => res
  | fuel + 1, queue, visited, res =>
    if limit ≤ res.length then res
    else
      match queue with
      | [] => res
      | sha :: rest =>
        if sha = "" || visited.contains sha then logAux commits limit fuel rest visited res
        else
          match lookup commits sha with
          | none => logAux commits limit fuel rest (sha :: visited) res
          | some c => logAux commits limit fuel (rest ++ c.parents) (sha :: visited) (res ++ [c])

/-- `log(limit)` from script.js (a query, not wrapped by the validator). -/
def logOp (s : GitState) (limit : Nat) : Except String (List Commit) :=
  if s.initialized = false then .error "not a git repository"
  else
    match currentSha s with
    | none => .ok []
    | some cur =>
      if cur = "" then .ok []
      else .ok (logAux s.commits limit (bfsFuel s.commits 1) [cur] [] [])

/-- `init()` from script.js v3: reset to one default branch with no
commits, HEAD attached to it. -/
def initOp : GitState :=
  { initialized := true, commits := [], branches := [("master", none)],
    head := some "master", detached := false, stash := [], tags := [], remote := [] }

/-- The module state before any `init` call. -/
def uninitState : GitState :=
  { initialized := false, commits := [], branches := [], head := none,
    detached := false, stash := [], tags := [], remote := [] }

/-- Result of `checkout`. -/
inductive CheckoutResult where
  | branchType (name : String)
  | detachedType (sha : String)
deriving Repr, DecidableEq

/-- Result of `merge`. -/
inductive MergeResult where
  | upToDate
  | ffwd (sha : String)
  | merged (sha : String)
deriving Repr, DecidableEq

/-- Result of `rebase`. -/
inductive RebaseResult where
  | upToDate
  | done (count : Nat) (tip : String)
deriving Repr, DecidableEq

/-- Result of `cherryPick`. -/
structure CherryResult where
  sha : String
  original : String
  message : String
deriving Repr, DecidableEq

/-- Result of `push`. -/
structure PushResult where
  branch : String
  sha : String
  isNew : Bool
  wasUpToDate : Bool
deriving Repr, DecidableEq

/-- Result of `pull`. -/
inductive PullResult where
  | upToDate (branch : String)
  | ffwd (branch : String) (sha : String)
deriving Repr, DecidableEq

/-- `commit(message)` from script.js, with the generated sha and the clock
passed explicitly.  Errors leave the state untouched, as in the source
where every throw precedes the first mutation. -/
def commitOp (s : GitState) (message sha : String) (now : Nat) :
    Except String String × GitState :=
  if s.initialized = false then (.error "not a git repository", s)
  else
    let parent := currentSha s
    let c : Commit :=
      { sha := sha, message := message,
        parents := match parent with
          | some p => if p = "" then [] else [p]
          | none => [],
        timestamp := now,
        branch := if s.detached then none else s.head }
    let s1 := { s with commits := insertKV s.commits sha c }
    if s.detached then (.ok sha, { s1 with head := some sha })
    else (.ok sha, { s1 with branches := insertKV s1.branches (headKey s) (some sha) })

/-- `branch(name)` from script.js. -/
def branchOp (s : GitState) (name : String) : Except String String × GitState :=
  if s.initialized = false then (.error "not a git repository", s)
  else if (lookup s.branches name).isSome then (.error "branch already exists", s)
  else
    let current := currentSha s
    if truthyS current = false then (.error "cannot create branch: no commits yet", s)
    else (.ok name, { s with branches := insertKV s.branches name current })

/-- `checkout(target)` from script.js: existing branch name, else exact
commit id, else failure.  No prefix resolution happens here. -/
def checkoutOp (s : GitState) (target : String) :
    Except String CheckoutResult × GitState :=
  if s.initialized = false then (.error "not a git repository", s)
  else if (lookup s.branches target).isSome then
    (.ok (.branchType target), { s with head := some target, detached := false })
  else if (lookup s.commits target).isSome then
    (.ok (.detachedType target), { s with head := some target, detached := true })
  else (.error "pathspec did not match any known branch or commit", s)

/-- `checkoutNewBranch(name)` from script.js v3: stores `_currentSha()`
unconditionally (which may be null) and attaches HEAD. -/
def checkoutNewBranchOp (s : GitState) (name : String) :
    Except String String × GitState :=
  if s.initialized = false then (.error "not a git repository", s)
  else if (lookup s.branches name).isSome then (.error "branch already exists", s)
  else
    (.ok name,
      { s with branches := insertKV s.branches name (currentSha s),
               head := some name, detached := false })

/-- `merge(sourceBranch)` from script.js v3. -/
def mergeOp (s : GitState) (src sha : String) (now : Nat) :
    Except String MergeResult × GitState :=
  if s.initialized = false then (.error "not a git repository", s)
  else if s.detached then (.error "cannot merge in detached HEAD state", s)
  else if s.head = some src then (.error "cannot merge a branch into itself", s)
  else
    match lookup s.branches src with
    | none => (.error "branch not found", s)
    | some srcVal =>
      if truthyS srcVal = false then (.error "branch has no commits", s)
      else
        let S := srcVal.getD ""
        let curOpt := currentSha s
        if truthyS curOpt = false then (.error "current branch has no commits", s)
        else
          let C := curOpt.getD ""
          if S = C || isAncestor s.commits S C then (.ok .upToDate, s)
          else if isAncestor s.commits C S then
            (.ok (.ffwd S), { s with branches := insertKV s.branches (headKey s) (some S) })
          else
            let c : Commit :=
              { sha := sha, message := "Merge branch " ++ src ++ " into " ++ headKey s,
                parents := [C, S], timestamp := now, branch := s.head, isMerge := true }
            (.ok (.merged sha),
              { s with commits := insertKV s.commits sha c,
                       branches := insertKV s.branches (headKey s) (some sha) })

/-- The commit record a rebase replay step creates for original `o` on
parent `base` with generated sha `ns`. -/
def replayCommit (hd : Option String) (now : Nat) (o : Commit) (base ns : String) :
    Commit :=
  { sha := ns, message := o.message, parents := [base], timestamp := now,
    branch := hd, rebased := true, originalSha := some o.sha }

/-- The replay loop of `rebase`: one new commit per entry of `toReplay`,
each parented on the running base, consuming `supply i, supply (i+1), ...`
for the generated shas. -/
def replayAux (hd : Option String) (now : Nat) (supply : Nat → String) :
    List Commit → Nat → List (String × Commit) → String →
    List (String × Commit) × String
  | [], _, tbl, base => (tbl, base)
  | o :: os, i, tbl, base =>
    let ns := supply i
    replayAux hd now supply os (i + 1) (insertKV tbl ns (replayCommit hd now o base ns)) ns

/-- The list of commits `rebase` replays: those reachable from the current
tip `C` but not among the ancestors of the target tip `T`, oldest first. -/
def replaySet (s : GitState) (C T : String) : List Commit :=
  getCommitsSince s.commits C (getAllAncestors s.commits T)

/-- `rebase(targetBranch)` from script.js v3. -/
def rebaseOp (s : GitState) (tgt : String) (supply : Nat → String) (now : Nat) :
    Except String RebaseResult × GitState :=
  if s.initialized = false then (.error "not a git repository", s)
  else if s.detached then (.error "cannot rebase in detached HEAD state", s)
  else if s.head = some tgt then (.error "cannot rebase a branch onto itself", s)
  else
    match lookup s.branches tgt with
    | none => (.error "branch not found", s)
    | some tv =>
      if truthyS tv = false then (.error "branch has no commits", s)
      else
        let T := tv.getD ""
        let curOpt := currentSha s
        if truthyS curOpt = false then (.error "current branch has no commits to rebase", s)
        else
          let C := curOpt.getD ""
          let anc := getAllAncestors s.commits T
          let toReplay := getCommitsSince s.commits C anc
          if toReplay.isEmpty then (.ok .upToDate, s)
          else
            let r := replayAux s.head now supply toReplay 0 s.commits T
            (.ok (.done toReplay.length r.2),
              { s with commits := r.1,
                       branches := insertKV s.branches (headKey s) (some r.2) })

/-- `cherryPick(sha)` from script.js v3: exact id, else the FIRST key with
the given string as a prefix; note there is no initialization check and no
ambiguity check in the source. -/
def cherryPickOp (s : GitState) (sha newSha : String) (now : Nat) :
    Except String CherryResult × GitState :=
  let m? : Option String :=
    if (lookup s.commits sha).isSome then some sha
    else (keys s.commits).find? (fun k => strStarts k sha)
  match m? with
  | none => (.error "bad revision", s)
  | some m =>
    let source := (lookup s.commits m).getD default
    let cur := currentSha s
    if truthyS cur = false then
      (.error "cannot cherry-pick: no commits on current branch", s)
    else
      let C := cur.getD ""
      let c : Commit :=
        { sha := newSha, message := source.message, parents := [C], timestamp := now,
          branch := if s.detached then none else s.head,
          cherryPicked := true, originalSha := some m }
      let s1 := { s with commits := insertKV s.commits newSha c }
      if s.detached then
        (.ok ⟨newSha, m, source.message⟩, { s1 with head := some newSha })
      else
        (.ok ⟨newSha, m, source.message⟩,
          { s1 with branches := insertKV s1.branches (headKey s) (some newSha) })

/-- The `HEAD~N` notation recognized by `resetHard`. -/
def parseHeadTilde (t : String) : Option Nat :=
  if strStarts t "HEAD~" then
    let d := (t.data.drop 5)
    if d.length > 0 && d.all Char.isDigit then some (String.mk d).toNat? |>.join
    else none
  else none

/-- `resetHard(target)` from script.js v3.  The source returns the sha it
resolved, which in the `HEAD` corner case can be null, hence the
`Option String` payload. -/
def resetHardOp (s : GitState) (target : String) :
    Except String (Option String) × GitState :=
  if s.initialized = false then (.error "not a git repository", s)
  else if s.detached then (.error "cannot reset in detached HEAD state", s)
  else
    match parseHeadTilde target with
    | some steps =>
      let r := walkBack s.commits (currentSha s) steps
      if truthyS r = false then (.error "is not a valid commit", s)
      else (.ok r, { s with branches := insertKV s.branches (headKey s) r })
    | none =>
      if target = "HEAD" then
        let r := currentSha s
        (.ok r, { s with branches := insertKV s.branches (headKey s) r })
      else
        match (keys s.commits).find? (fun k => strStarts k target) with
        | some m =>
          (.ok (some m), { s with branches := insertKV s.branches (headKey s) (some m) })
        | none =>
          if (lookup s.commits target).isSome then
            (.ok (some target),
              { s with branches := insertKV s.branches (headKey s) (some target) })
          else (.error "is not a valid commit SHA", s)

/-- `stash()` from script.js. -/
def stashOp (s : GitState) : Except String Nat × GitState :=
  if s.initialized = false then (.error "not a git repository", s)
  else
    let cur := currentSha s
    if truthyS cur = false then (.error "nothing to stash", s)
    else (.ok s.stash.length, { s with stash := s.stash ++ [cur.getD ""] })

/-- `stashPop()` from script.js. -/
def stashPopOp (s : GitState) : Except String String × GitState :=
  if s.initialized = false then (.error "not a git repository", s)
  else
    match s.stash.getLast? with
    | none => (.error "no stash entries found", s)
    | some sha => (.ok sha, { s with stash := s.stash.dropLast })

/-- `tag(name, target)` from script.js v3 (`target` may be absent). -/
def tagOp (s : GitState) (name : String) (target : Option String) :
    Except String String × GitState :=
  if s.initialized = false then (.error "not a git repository", s)
  else if truthyS (lookup s.tags name) then (.error "tag already exists", s)
  else
    let sha0 : Option String :=
      match target with
      | some t => if t = "" then currentSha s else some t
      | none => currentSha s
    if truthyS sha0 = false then (.error "no commits to tag", s)
    else
      let sh := sha0.getD ""
      let sha1 :=
        match (keys s.commits).find? (fun k => strStarts k sh) with
        | some m => m
        | none => sh
      if (lookup s.commits sha1).isSome = false then (.error "is not a valid SHA", s)
      else (.ok sha1, { s with tags := insertKV s.tags name sha1 })

/-- The branch-name defaulting rule shared by `push` and `pull`:
an explicit truthy argument wins, else the attached HEAD, else null. -/
def pushPullName (s : GitState) (branchName : Option String) : Option String :=
  match branchName with
  | some b => if b = "" then (if s.detached then none else s.head) else some b
  | none => if s.detached then none else s.head

/-- `push(branchName)` from script.js v3. -/
def pushOp (s : GitState) (branchName : Option String) :
    Except String PushResult × GitState :=
  if s.initialized = false then (.error "not a git repository", s)
  else
    let name? := pushPullName s branchName
    if truthyS name? = false then (.error "cannot push in detached HEAD state", s)
    else
      let name := name?.getD ""
      match lookup s.branches name with
      | none => (.error "branch not found", s)
      | some shaOpt =>
        if truthyS shaOpt = false then (.error "branch has no commits to push", s)
        else
          let sha := shaOpt.getD ""
          let prev := lookup s.remote name
          (.ok { branch := name, sha := sha, isNew := prev.isNone,
                 wasUpToDate := prev = some sha },
            { s with remote := insertKV s.remote name sha })

/-- `pull(branchName)` from script.js v3: force fast-forward of the local
branch to the recorded remote sha, with no ancestry check. -/
def pullOp (s : GitState) (branchName : Option String) :
    Except String PullResult × GitState :=
  if s.initialized = false then (.error "not a git repository", s)
  else
    let name? := pushPullName s branchName
    if truthyS name? = false then (.error "cannot pull in detached HEAD state", s)
    else
      let name := name?.getD ""
      match lookup s.remote name with
      | none => (.error "no remote tracking branch", s)
      | some r =>
        if r = "" then (.error "no remote tracking branch", s)
        else
          let localSha := (lookup s.branches name).join
          if localSha = some r then (.ok (.upToDate name), s)
          else (.ok (.ffwd name r), { s with branches := insertKV s.branches name (some r) })

/-- The branch loop of `assertValidState`: a truthy branch value must be a
key of the commit table. -/
def branchErr : List (String × Option String) → List (String × Commit) → Option String
  | [], _ => none
  | (_, t) :: rest, commits =>
    match t with
    | some v =>
      if v ≠ "" ∧ (lookup commits v).isNone then some "Branch points to invalid commit"
      else branchErr rest commits
    | none => branchErr rest commits

/-- The commit loop of `assertValidState`: every parent id must be a key
of the commit table. -/
def parentErr : List (String × Commit) → List (String × Commit) → Option String
  | [], _ => none
  | (_, c) :: rest, full =>
    if c.parents.any (fun p => (lookup full p).isNone) then
      some "Commit has orphaned parent"
    else parentErr rest full

/-- The HEAD checks at the top of `assertValidState`.  When HEAD is
attached the branch value must be truthy, so the no-commits-yet state
right after `init` is rejected here. -/
def headErrOf (s : GitState) : Option String :=
  if s.detached then
    if (lookup s.commits (headKey s)).isSome then none
    else some "Detached HEAD points to invalid commit"
  else
    match lookup s.branches (headKey s) with
    | some (some v) =>
      if v = "" then some "HEAD branch does not exist"
      else if (lookup s.commits v).isSome then none
      else some "HEAD branch points to invalid commit"
    | _ => some "HEAD branch does not exist"

/-- `assertValidState()` from script.js v3, as the first error raised (or
none): HEAD checks, then the branch loop, then the parent loop. -/
def checkValid (s : GitState) : Option String :=
  match headErrOf s with
  | some e => some e
  | none =>
    match branchErr s.branches s.commits with
    | some e => some e
    | none => parentErr s.commits s.commits

/-- The wrapper installed over every mutating operation in script.js v3:
`assertValidState` before, the original call, `assertValidState` after.
A failing post check raises after the mutation already happened, so the
mutated state is kept. -/
def runChecked {α : Type} (f : GitState → Except String α × GitState) (s : GitState) :
    Except String α × GitState :=
  match checkValid s with
  | some e => (.error e, s)
  | none =>
    match f s with
    | (.error e, s1) => (.error e, s1)
    | (.ok a, s1) =>
      match checkValid s1 with
      | some e => (.error e, s1)
      | none => (.ok a, s1)

/-- Public `commit` (wrapped). -/
def commitC (s : GitState) (message sha : String) (now : Nat) :
    Except String String × GitState :=
  runChecked (fun t => commitOp t message sha now) s

/-- Public `branch` (wrapped). -/
def branchC (s : GitState) (name : String) : Except String String × GitState :=
  runChecked (fun t => branchOp t name) s

/-- Public `checkout` (wrapped). -/
def checkoutC (s : GitState) (target : String) : Except String CheckoutResult × GitState :=
  runChecked (fun t => checkoutOp t target) s

/-- Public `checkoutNewBranch` (wrapped). -/
def checkoutNewBranchC (s : GitState) (name : String) : Except String String × GitState :=
  runChecked (fun t => checkoutNewBranchOp t name) s

/-- Public `merge` (wrapped). -/
def mergeC (s : GitState) (src sha : String) (now : Nat) :
    Except String MergeResult × GitState :=
  runChecked (fun t => mergeOp t src sha now) s

/-- Public `rebase` (wrapped). -/
def rebaseC (s : GitState) (tgt : String) (supply : Nat → String) (now : Nat) :
    Except String RebaseResult × GitState :=
  runChecked (fun t => rebaseOp t tgt supply now) s

/-- Public `cherryPick` (wrapped). -/
def cherryPickC (s : GitState) (sha newSha : String) (now : Nat) :
    Except String CherryResult × GitState :=
  runChecked (fun t => cherryPickOp t sha newSha now) s

/-- Public `resetHard` (wrapped). -/
def resetHardC (s : GitState) (target : String) :
    Except String (Option String) × GitState :=
  runChecked (fun t => resetHardOp t target) s

/-- Public `stash` (wrapped). -/
def stashC (s : GitState) : Except String Nat × GitState :=
  runChecked stashOp s

/-- Public `stashPop` (wrapped). -/
def stashPopC (s : GitState) : Except String String × GitState :=
  runChecked stashPopOp s

/-- Public `tag` (wrapped). -/
def tagC (s : GitState) (name : String) (target : Option String) :
    Except String String × GitState :=
  runChecked (fun t => tagOp t name target) s

/-- Public `push` (wrapped). -/
def pushC (s : GitState) (branchName : Option String) :
    Except String PushResult × GitState :=
  runChecked (fun t => pushOp t branchName) s

/-- Public `pull` (wrapped). -/
def pullC (s : GitState) (branchName : Option String) :
    Except String PullResult × GitState :=
  runChecked (fun t => pullOp t branchName) s

/-- Number of branches whose value is the JavaScript `null`. -/
def countNone (bs : List (String × Option String)) : Nat :=
  (bs.filter (fun nt => nt.2.isNone)).length

/-- Spec property 1 (no dangling parents): every parent id of every commit
in the table is itself a key of the table. -/
def noDanglingB (cs : List (String × Commit)) : Bool :=
  cs.all (fun kc => kc.2.parents.all (fun p => (lookup cs p).isSome))

/-- One branch target is either null or a key of the commit table. -/
def branchTargetOK (cs : List (String × Commit)) : Option String → Bool
  | some t => (lookup cs t).isSome
  | none => true

/-- Spec property 2 (branch resolution): every branch with a non-null
target maps to a key of the commit table. -/
def branchesResolveB (bs : List (String × Option String))
    (cs : List (String × Commit)) : Bool :=
  bs.all (fun nt => branchTargetOK cs nt.2)

/-- Every remote-tracking entry maps to a key of the commit table. -/
def remoteResolvesB (rs : List (String × String)) (cs : List (String × Commit)) : Bool :=
  rs.all (fun nt => (lookup cs nt.2).isSome)

/-- The two-part consistency invariant exactly as claimed (commit parents
and branch targets only). -/
def repoInv2B (s : GitState) : Bool :=
  noDanglingB s.commits && branchesResolveB s.branches s.commits

/-- The strengthened invariant that also covers remote-tracking refs. -/
def repoInv3B (s : GitState) : Bool :=
  repoInv2B s && remoteResolvesB s.remote s.commits

/-- Topological table order: each parent id of each entry occurs as a key
strictly earlier in the table (the seen accumulator carries the keys of
the prefix already passed). -/
def topoOKAux : List String → List (String × Commit) → Bool
  | _, [] => true
  | seen, (k, c) :: rest =>
    c.parents.all (fun p => seen.contains p) && topoOKAux (k :: seen) rest

def topoOKB (cs : List (String × Commit)) : Bool := topoOKAux [] cs

/-- Index of the first entry with the given key. -/
def rankIn (cs : List (String × Commit)) (k : String) : Nat :=
  cs.findIdx (fun kc => kc.1 = k)

/-- Parent-edge reachability over the commit table: `Reaches cs a b` means
`b` is reachable from `a` by following parent edges (zero or more). -/
inductive Reaches (commits : List (String × Commit)) : String → String → Prop
  | refl (a : String) : Reaches commits a a
  | step {a b p : String} {c : Commit} : Reaches commits a b →
      lookup commits b = some c → p ∈ c.parents → Reaches commits a p

/-- A result is an error. -/
def isErr {α : Type} : Except String α → Bool
  | .error _ => true
  | .ok _ => false

/-- An operation failed and returned exactly the state it was given. -/
def failsClean {α : Type} (r : Except String α × GitState) (s : GitState) : Prop :=
  isErr r.1 = true ∧ r.2 = s

/-- Shorthand for a root commit record, as `commit` creates it. -/
def mkRoot (sha msg : String) (t : Nat) (br : Option String) : Commit :=
  { sha := sha, message := msg, parents := [], timestamp := t, branch := br }

/-- Shorthand for a single-parent commit record, as `commit` creates it. -/
def mkChild (sha msg p : String) (t : Nat) (br : Option String) : Commit :=
  { sha := sha, message := msg, parents := [p], timestamp := t, branch := br }

/-- State after the raw (unwrapped) `commit("a")` on a fresh repository. -/
def c1s1 : GitState := (commitOp initOp "a" "aaaa111" 0).2

/-- State after the raw `commit("b")` on top of `c1s1`. -/
def c1s2 : GitState := (commitOp c1s1 "b" "bbbb222" 1).2

/-- A valid one-commit repository whose only commit id is `abc1234`. -/
def c2state : GitState :=
  { initialized := true,
    commits := [("abc1234", mkRoot "abc1234" "a" 0 (some "master"))],
    branches := [("master", some "abc1234")], head := some "master",
    detached := false, stash := [], tags := [], remote := [] }

/-- A valid repository with two commit ids `ab1`, `ab2` sharing the proper
prefix `ab`. -/
def c4state : GitState :=
  { initialized := true,
    commits := [("ab1", mkRoot "ab1" "m1" 0 (some "master")),
                ("ab2", mkChild "ab2" "m2" "ab1" 1 (some "master"))],
    branches := [("master", some "ab2")], head := some "master",
    detached := false, stash := [], tags := [], remote := [] }

/-- A two-commit chain with `master` behind `feat`: the fast-forward
situation of C5, also used for the push/pull witness. -/
def c5state : GitState :=
  { initialized := true,
    commits := [("aaa1", mkRoot "aaa1" "a" 0 (some "master")),
                ("bbb2", mkChild "bbb2" "b" "aaa1" 1 (some "feat"))],
    branches := [("master", some "aaa1"), ("feat", some "bbb2")],
    head := some "master", detached := false, stash := [], tags := [], remote := [] }

/-- Two branches diverged from a common root: the true-merge situation. -/
def c6state : GitState :=
  { initialized := true,
    commits := [("aaa1", mkRoot "aaa1" "a" 0 (some "master")),
                ("bbb2", mkChild "bbb2" "b" "aaa1" 1 (some "master")),
                ("ccc3", mkChild "ccc3" "c" "aaa1" 2 (some "feat"))],
    branches := [("master", some "bbb2"), ("feat", some "ccc3")],
    head := some "master", detached := false, stash := [], tags := [], remote := [] }

/-- `feat` (current, two own commits) diverged from `master`: the rebase
situation of C7. -/
def c7state : GitState :=
  { initialized := true,
    commits := [("aaa1", mkRoot "aaa1" "a" 0 (some "master")),
                ("bbb2", mkChild "bbb2" "b" "aaa1" 1 (some "master")),
                ("ccc3", mkChild "ccc3" "c" "aaa1" 2 (some "feat")),
                ("ddd4", mkChild "ddd4" "d" "ccc3" 3 (some "feat"))],
    branches := [("master", some "bbb2"), ("feat", some "ddd4")],
    head := some "feat", detached := false, stash := [], tags := [], remote := [] }

/-- The supply of generated shas used by the C7 witness. -/
def c7supply : Nat → String := fun n => "new" ++ toString n ++ "x"

/-- A one-commit repository used by the C8 witness. -/
def c8state : GitState :=
  { initialized := true,
    commits := [("aaa7", mkRoot "aaa7" "a" 0 (some "master"))],
    branches := [("master", some "aaa7")], head := some "master",
    detached := false, stash := [], tags := [], remote := [] }

/-- The possible effects of one operation on the branch table: unchanged,
or one key set to a non-null sha. -/
def branchesShape (s : GitState) (bs2 : List (String × Option String)) : Prop :=
  bs2 = s.branches ∨ ∃ k t, bs2 = insertKV s.branches k (some t)

/-- A state with one null branch (the init default) and one populated
branch, used to witness the null-branch-count preservation. -/
def c3state : GitState :=
  { initialized := true,
    commits := [("aa1", mkRoot "aa1" "c3" 0 (some "dev"))],
    branches := [("master", none), ("dev", some "aa1")], head := some "dev",
    detached := false, stash := [], tags := [], remote := [] }

/-- A state satisfying the claimed two-part invariant whose remote entry
for `master` points at an id absent from the table. -/
def c9state : GitState :=
  { initialized := true,
    commits := [("aaa1", mkRoot "aaa1" "m" 0 (some "master"))],
    branches := [("master", some "aaa1")], head := some "master",
    detached := false, stash := [], tags := [], remote := [("master", "zzz9")] }

/-- A small valid repository used to witness invariant preservation. -/
def c9wstate : GitState :=
  { initialized := true,
    commits := [("qq1", mkRoot "qq1" "w" 0 (some "master"))],
    branches := [("master", some "qq1")], head := some "master",
    detached := false, stash := [], tags := [], remote := [("master", "qq1")] }

/-- A valid repository with two commit ids `de1`, `de2` sharing the proper
prefix `de`; used against the all-preconditions claim. -/
def c10state : GitState :=
  { initialized := true,
    commits := [("de1", mkRoot "de1" "u1" 0 (some "master")),
                ("de2", mkChild "de2" "u2" "de1" 1 (some "master"))],
    branches := [("master", some "de2")], head := some "master",
    detached := false, stash := [], tags := [], remote := [] }

theorem lookup_insertKV_self {α : Type} (l : List (String × α)) (k : String) (v : α) :
    lookup (insertKV l k v) k = some v := by
  induction l with
  | nil => simp [insertKV, lookup]
  | cons h t ih =>
    obtain ⟨k0, v0⟩ := h
    by_cases hk : k = k0
    · simp [insertKV, lookup, hk]
    · simp [insertKV, lookup, hk, ih]

theorem lookup_insertKV_ne {α : Type} (l : List (String × α)) (k k' : String) (v : α)
    (h : k' ≠ k) : lookup (insertKV l k v) k' = lookup l k' := by
  induction l with
  | nil => simp [insertKV, lookup, h]
  | cons hd t ih =>
    obtain ⟨k0, v0⟩ := hd
    by_cases hk : k = k0
    · subst hk
      simp [insertKV, lookup, h]
    · by_cases hk' : k' = k0
      · simp [insertKV, lookup, hk, hk']
      · simp [insertKV, lookup, hk, hk', ih]

theorem mem_insertKV {α : Type} {l : List (String × α)} {k : String} {v : α}
    {x : String × α} (h : x ∈ insertKV l k v) : x ∈ l ∨ x = (k, v) := by
  induction l with
  | nil => simpa [insertKV] using h
  | cons hd t ih =>
    obtain ⟨k0, v0⟩ := hd
    by_cases hk : k = k0
    · subst hk
      rcases (by simpa [insertKV] using h : x = (k, v) ∨ x ∈ t) with h1 | h1
      · exact Or.inr h1
      · exact Or.inl (List.mem_cons_of_mem _ h1)
    · rcases (by simpa [insertKV, hk] using h : x = (k0, v0) ∨ x ∈ insertKV t k v) with h1 | h1
      · exact Or.inl (by simp [h1])
      · rcases ih h1 with h2 | h2
        · exact Or.inl (List.mem_cons_of_mem _ h2)
        · exact Or.inr h2

theorem lookup_isSome_insertKV {α : Type} (l : List (String × α)) (k k' : String) (v : α)
    (h : (lookup l k').isSome = true) : (lookup (insertKV l k v) k').isSome = true := by
  by_cases hk : k' = k
  · subst hk
    simp [lookup_insertKV_self]
  · rw [lookup_insertKV_ne l k k' v hk]
    exact h

theorem lookup_some_mem {α : Type} {l : List (String × α)} {k : String} {v : α}
    (h : lookup l k = some v) : (k, v) ∈ l := by
  induction l with
  | nil => simp [lookup] at h
  | cons hd t ih =>
    obtain ⟨k0, v0⟩ := hd
    by_cases hk : k = k0
    · subst hk
      simp [lookup] at h
      simp [h]
    · simp [lookup, hk] at h
      exact List.mem_cons_of_mem _ (ih h)

theorem runChecked_pre {α : Type} (f : GitState → Except String α × GitState)
    (s : GitState) (e : String) (h : checkValid s = some e) :
    runChecked f s = (.error e, s) := by
  simp [runChecked, h]

theorem runChecked_rawErr {α : Type} (f : GitState → Except String α × GitState)
    (s : GitState) (e : String) (h : checkValid s = none) (hf : f s = (.error e, s)) :
    runChecked f s = (.error e, s) := by
  simp [runChecked, h, hf]

theorem runChecked_ok {α : Type} (f : GitState → Except String α × GitState)
    (s s1 : GitState) (a : α) (h : checkValid s = none) (hf : f s = (.ok a, s1))
    (h1 : checkValid s1 = none) : runChecked f s = (.ok a, s1) := by
  simp [runChecked, h, hf, h1]

theorem runChecked_snd_ok {α : Type} (f : GitState → Except String α × GitState)
    (s s1 : GitState) (a : α) (h : checkValid s = none) (hf : f s = (.ok a, s1)) :
    (runChecked f s).2 = s1 := by
  simp only [runChecked, h, hf]
  rcases h2 : checkValid s1 with _ | e <;> simp

theorem runChecked_unchanged_of_rawErr {α : Type}
    (f : GitState → Except String α × GitState) (s : GitState)
    (hf : checkValid s = none → ∃ e, f s = (.error e, s)) :
    failsClean (runChecked f s) s := by
  rcases h : checkValid s with _ | e
  · obtain ⟨e, he⟩ := hf h
    rw [runChecked_rawErr f s e h he]
    exact ⟨rfl, rfl⟩
  · rw [runChecked_pre f s e h]
    exact ⟨rfl, rfl⟩

theorem checkValid_none_iff (s : GitState) :
    checkValid s = none ↔
      headErrOf s = none ∧ branchErr s.branches s.commits = none ∧
      parentErr s.commits s.commits = none := by
  unfold checkValid
  rcases h1 : headErrOf s with _ | e1
  · rcases h2 : branchErr s.branches s.commits with _ | e2
    · simp
    · simp [h2]
  · simp

theorem branchErr_none_iff (bs : List (String × Option String))
    (cs : List (String × Commit)) :
    branchErr bs cs = none ↔
      ∀ p ∈ bs, ∀ v, p.2 = some v → v ≠ "" → (lookup cs v).isSome = true := by
  induction bs with
  | nil => simp [branchErr]
  | cons hd t ih =>
    obtain ⟨n, tv⟩ := hd
    rcases tv with _ | v
    · simp only [branchErr]
      rw [ih]
      constructor
      · intro h p hp v hv hne
        rcases List.mem_cons.mp hp with h1 | h1
        · subst h1; simp at hv
        · exact h p h1 v hv hne
      · intro h p hp v hv hne
        exact h p (List.mem_cons_of_mem _ hp) v hv hne
    · simp only [branchErr]
      by_cases hv : v ≠ "" ∧ (lookup cs v).isNone
      · rw [if_pos hv]
        constructor
        · intro h; exact absurd h (by simp)
        · intro h
          have := h (n, some v) (List.mem_cons_self _ _) v rfl hv.1
          have hv2 := hv.2
          rw [Option.isNone_iff_eq_none] at hv2
          simp [hv2] at this
      · rw [if_neg hv]
        rw [ih]
        constructor
        · intro h p hp w hw hne
          rcases List.mem_cons.mp hp with h1 | h1
          · subst h1
            simp at hw
            subst hw
            rcases not_and_or.mp hv with h2 | h2
            · exact absurd hne h2
            · simpa [Option.isSome_iff_ne_none, Option.isNone_iff_eq_none] using h2
          · exact h p h1 w hw hne
        · intro h p hp w hw hne
          exact h p (List.mem_cons_of_mem _ hp) w hw hne

theorem parentErr_none_iff (l cs : List (String × Commit)) :
    parentErr l cs = none ↔
      ∀ p ∈ l, ∀ q ∈ p.2.parents, (lookup cs q).isSome = true := by
  induction l with
  | nil => simp [parentErr]
  | cons hd t ih =>
    obtain ⟨n, c⟩ := hd
    simp only [parentErr]
    by_cases hc : c.parents.any (fun p => (lookup cs p).isNone) = true
    · rw [if_pos hc]
      constructor
      · intro h; exact absurd h (by simp)
      · intro h
        rcases List.any_eq_true.mp hc with ⟨q, hq, hq2⟩
        have := h (n, c) (List.mem_cons_self _ _) q hq
        simp [Option.isNone_iff_eq_none] at hq2
        simp [hq2] at this
    · rw [if_neg hc]
      rw [ih]
      have hall : ∀ q ∈ c.parents, (lookup cs q).isSome = true := by
        intro q hq
        by_contra hno
        apply hc
        refine List.any_eq_true.mpr ⟨q, hq, ?_⟩
        simpa [Option.isNone_iff_eq_none, Option.isSome_iff_ne_none] using hno
      constructor
      · intro h p hp q hq
        rcases List.mem_cons.mp hp with h1 | h1
        · subst h1; exact hall q hq
        · exact h p h1 q hq
      · intro h p hp q hq
        exact h p (List.mem_cons_of_mem _ hp) q hq

/-- C1: the claim fails on the shipped code.  The public `commit` is
wrapped with `assertValidState`, whose attached-HEAD check rejects the
freshly initialized state (the default branch maps to null), so
`init; commit("a")` raises "HEAD branch does not exist" and changes
nothing — even though the same file's scenario player and tutorial replay
exactly this sequence.  The unwrapped `commit` behaves as the claim
describes: two commits, "b" parented on "a", "a" a root, and `log(10)`
returning "b" before "a". -/
theorem C1_commit_after_init_rejected :
    (commitC initOp "a" "aaaa111" 0).1 = .error "HEAD branch does not exist" ∧
    (commitC initOp "a" "aaaa111" 0).2 = initOp ∧
    (commitOp initOp "a" "aaaa111" 0).1 = .ok "aaaa111" ∧
    (commitOp c1s1 "b" "bbbb222" 1).1 = .ok "bbbb222" ∧
    c1s2.commits.map (fun kc => (kc.1, kc.2.parents)) =
      [("aaaa111", []), ("bbbb222", ["aaaa111"])] ∧
    (logOp c1s2 10).map (fun l => l.map Commit.sha) = .ok ["bbbb222", "aaaa111"] := by
  decide

/-- C2 counterexample: in `c2state` the string "abc" is an unambiguous
proper prefix of the only commit id "abc1234", yet `checkout("abc")`
fails with the pathspec error and leaves the state unchanged, instead of
detaching HEAD as the claim asserts. -/
theorem C2_counterexample_prefix_not_resolved :
    c2state.initialized = true ∧
    strStarts "abc1234" "abc" = true ∧
    lookup c2state.branches "abc" = none ∧
    (keys c2state.commits).filter (fun k => strStarts k "abc") = ["abc1234"] ∧
    (checkoutC c2state "abc").1 =
      .error "pathspec did not match any known branch or commit" ∧
    (checkoutC c2state "abc").2 = c2state := by
  decide

/-- C2 (amended): for every initialized repository passing the state
validator, `checkout(target)` attaches HEAD to an existing branch named
`target`; otherwise it detaches HEAD only at an exact commit id; any
other target — including an unambiguous proper prefix of a commit id —
fails with the pathspec error and changes nothing. -/
theorem C2_checkout_branch_exact_or_fail (s : GitState) (target : String)
    (hinit : s.initialized = true) (hv : checkValid s = none) :
    ((lookup s.branches target).isSome = true →
      (checkoutC s target).2 = { s with head := some target, detached := false }) ∧
    (lookup s.branches target = none → (lookup s.commits target).isSome = true →
      checkoutC s target =
        (.ok (.detachedType target), { s with head := some target, detached := true })) ∧
    (lookup s.branches target = none → lookup s.commits target = none →
      checkoutC s target =
        (.error "pathspec did not match any known branch or commit", s)) := by
  refine ⟨?_, ?_, ?_⟩
  · intro hb
    have hf : checkoutOp s target =
        (.ok (.branchType target), { s with head := some target, detached := false }) := by
      simp [checkoutOp, hinit, hb]
    exact runChecked_snd_ok _ s _ _ hv hf
  · intro hb hc
    have hf : checkoutOp s target =
        (.ok (.detachedType target), { s with head := some target, detached := true }) := by
      simp [checkoutOp, hinit, hb, hc]
    refine runChecked_ok _ s _ _ hv hf ?_
    rw [checkValid_none_iff] at hv ⊢
    obtain ⟨_, h2, h3⟩ := hv
    refine ⟨?_, h2, h3⟩
    simp [headErrOf, headKey, hc]
  · intro hb hc
    have hf : checkoutOp s target =
        (.error "pathspec did not match any known branch or commit", s) := by
      simp [checkoutOp, hinit, hb, hc]
    exact runChecked_rawErr _ s _ hv hf

/-- C2 witness: the amended theorem applied to the concrete one-commit
repository, checking out the exact id. -/
theorem C2_checkout_witness :
    checkoutC c2state "abc1234" =
      (.ok (.detachedType "abc1234"),
        { c2state with head := some "abc1234", detached := true }) :=
  (C2_checkout_branch_exact_or_fail c2state "abc1234" (by decide) (by decide)).2.1
    (by decide) (by decide)

theorem lookup_isSome_of_mem_keys {α : Type} {l : List (String × α)} {k : String}
    (h : k ∈ keys l) : (lookup l k).isSome = true := by
  induction l with
  | nil => simp [keys] at h
  | cons hd t ih =>
    obtain ⟨k0, v0⟩ := hd
    by_cases hk : k = k0
    · simp [lookup, hk]
    · simp [keys, hk] at h
      simp [lookup, hk]
      exact ih (by simpa [keys] using h)

theorem branchErr_none_mono (bs : List (String × Option String))
    (cs : List (String × Commit)) (k : String) (c : Commit)
    (h : branchErr bs cs = none) : branchErr bs (insertKV cs k c) = none := by
  rw [branchErr_none_iff] at h ⊢
  intro p hp v hv hne
  exact lookup_isSome_insertKV cs k v c (h p hp v hv hne)

theorem branchErr_none_insert (bs : List (String × Option String))
    (cs : List (String × Commit)) (n t : String)
    (h : branchErr bs cs = none) (ht : t = "" ∨ (lookup cs t).isSome = true) :
    branchErr (insertKV bs n (some t)) cs = none := by
  rw [branchErr_none_iff] at h ⊢
  intro p hp v hv hne
  rcases mem_insertKV hp with h1 | h1
  · exact h p h1 v hv hne
  · subst h1
    simp at hv
    subst hv
    rcases ht with h2 | h2
    · exact absurd h2 hne
    · exact h2

theorem parentErr_none_insert (cs : List (String × Commit)) (k : String) (c : Commit)
    (h : parentErr cs cs = none)
    (hc : ∀ p ∈ c.parents, (lookup (insertKV cs k c) p).isSome = true) :
    parentErr (insertKV cs k c) (insertKV cs k c) = none := by
  rw [parentErr_none_iff] at h ⊢
  intro p hp q hq
  rcases mem_insertKV hp with h1 | h1
  · exact lookup_isSome_insertKV cs k q c (h p h1 q hq)
  · subst h1
    exact hc q hq

theorem currentSha_attached_valid (s : GitState) (hdet : s.detached = false)
    (hv : checkValid s = none) :
    ∃ v, lookup s.branches (headKey s) = some (some v) ∧ currentSha s = some v ∧
      v ≠ "" ∧ (lookup s.commits v).isSome = true := by
  rw [checkValid_none_iff] at hv
  obtain ⟨h1, _, _⟩ := hv
  unfold headErrOf at h1
  rw [if_neg (by simp [hdet])] at h1
  rcases hb : lookup s.branches (headKey s) with _ | ov
  · rw [hb] at h1; simp at h1
  · rcases ov with _ | v
    · rw [hb] at h1; simp at h1
    · rw [hb] at h1
      by_cases hv0 : v = ""
      · simp [hv0] at h1
      · rcases hli : (lookup s.commits v).isSome with _ | _
        · simp [hv0, hli] at h1
        · exact ⟨v, rfl, by simp [currentSha, hdet, hb, hv0], hv0, hli⟩

/-- C4 counterexample: in `c4state` the string "ab" is a proper prefix of
the two distinct commit ids "ab1" and "ab2", yet `cherryPick("ab")` does
not fail: it copies the first match "ab1" and mutates the state. -/
theorem C4_counterexample_ambiguous_cherryPick_succeeds :
    (strStarts "ab1" "ab" = true ∧ strStarts "ab2" "ab" = true ∧
      lookup c4state.commits "ab1" ≠ none ∧ lookup c4state.commits "ab2" ≠ none) ∧
    lookup c4state.commits "ab" = none ∧
    (cherryPickC c4state "ab" "cc1" 2).1 = .ok ⟨"cc1", "ab1", "m1"⟩ ∧
    (cherryPickC c4state "ab" "cc1" 2).2 ≠ c4state := by
  decide

/-- C4 (amended): `cherryPick` resolves an exact id, else the first commit
id in table order with the argument as prefix — ambiguity is not a
failure.  On a valid attached state with such a first match `m`, it
succeeds, copying the message of `m` into a new commit parented on the
current tip and advancing the current branch to it. -/
theorem C4_cherryPick_first_match (s : GitState) (pfx newSha : String) (now : Nat)
    (m : String) (hv : checkValid s = none) (hdet : s.detached = false)
    (hnx : lookup s.commits pfx = none)
    (hm : (keys s.commits).find? (fun k => strStarts k pfx) = some m)
    (hsha : newSha ≠ "") :
    ∃ src C, lookup s.commits m = some src ∧ currentSha s = some C ∧
      cherryPickC s pfx newSha now =
        (.ok ⟨newSha, m, src.message⟩,
          { s with
            commits := insertKV s.commits newSha
              { sha := newSha, message := src.message, parents := [C], timestamp := now,
                branch := s.head, cherryPicked := true, originalSha := some m },
            branches := insertKV s.branches (headKey s) (some newSha) }) := by
  obtain ⟨C, hb, hcur, hC0, hCl⟩ := currentSha_attached_valid s hdet hv
  have hmk : m ∈ keys s.commits := List.mem_of_find?_eq_some hm
  have hml : (lookup s.commits m).isSome = true := lookup_isSome_of_mem_keys hmk
  obtain ⟨src, hsrc⟩ := Option.isSome_iff_exists.mp hml
  refine ⟨src, C, hsrc, hcur, ?_⟩
  have hf : cherryPickOp s pfx newSha now =
      (.ok ⟨newSha, m, src.message⟩,
        { s with
          commits := insertKV s.commits newSha
            { sha := newSha, message := src.message, parents := [C], timestamp := now,
              branch := s.head, cherryPicked := true, originalSha := some m },
          branches := insertKV s.branches (headKey s) (some newSha) }) := by
    simp [cherryPickOp, hnx, hm, hsrc, hcur, truthyS, hC0, hdet]
  refine runChecked_ok _ s _ _ hv hf ?_
  rw [checkValid_none_iff] at hv ⊢
  obtain ⟨_, h2, h3⟩ := hv
  refine ⟨?_, ?_, ?_⟩
  · show headErrOf _ = none
    unfold headErrOf
    rw [if_neg (by simp [hdet])]
    show (match lookup (insertKV s.branches (headKey s) (some newSha)) (headKey s) with
      | some (some v) =>
        if v = "" then some "HEAD branch does not exist"
        else if (lookup (insertKV s.commits newSha _) v).isSome then none
        else some "HEAD branch points to invalid commit"
      | _ => some "HEAD branch does not exist") = none
    rw [lookup_insertKV_self]
    simp [hsha, lookup_insertKV_self]
  · exact branchErr_none_insert _ _ _ _ (branchErr_none_mono _ _ _ _ h2)
      (Or.inr (by simp [lookup_insertKV_self]))
  · refine parentErr_none_insert _ _ _ h3 ?_
    intro p hp
    simp at hp
    subst hp
    exact lookup_isSome_insertKV _ _ _ _ hCl

/-- C4 witness: the amended theorem applied at the ambiguous prefix "ab"
of `c4state`. -/
theorem C4_cherryPick_witness :
    ∃ src C, lookup c4state.commits "ab1" = some src ∧ currentSha c4state = some C ∧
      cherryPickC c4state "ab" "cc1" 2 =
        (.ok ⟨"cc1", "ab1", src.message⟩,
          { c4state with
            commits := insertKV c4state.commits "cc1"
              { sha := "cc1", message := src.message, parents := [C], timestamp := 2,
                branch := c4state.head, cherryPicked := true, originalSha := some "ab1" },
            branches := insertKV c4state.branches (headKey c4state) (some "cc1") }) :=
  C4_cherryPick_first_match c4state "ab" "cc1" 2 "ab1" (by decide) (by decide)
    (by decide) (by decide) (by decide)

theorem isAncestorAux_sound (commits : List (String × Commit)) (anc d : String) :
    ∀ (fuel : Nat) (queue visited : List String),
      (∀ q ∈ queue, Reaches commits d q) →
      isAncestorAux commits anc fuel queue visited = true → Reaches commits d anc := by
  intro fuel
  induction fuel with
  | zero => intro queue visited _ h; simp [isAncestorAux] at h
  | succ n ih =>
    intro queue visited hq h
    rcases queue with _ | ⟨sha, rest⟩
    · simp [isAncestorAux] at h
    · simp only [isAncestorAux] at h
      by_cases hskip : (sha = "" || visited.contains sha) = true
      · rw [if_pos hskip] at h
        exact ih rest visited (fun q hq2 => hq q (List.mem_cons_of_mem _ hq2)) h
      · rw [if_neg hskip] at h
        by_cases hanc : sha = anc
        · subst hanc
          exact hq sha (List.mem_cons_self _ _)
        · rw [if_neg hanc] at h
          rcases hl : lookup commits sha with _ | c
          · rw [hl] at h
            exact ih rest _ (fun q hq2 => hq q (List.mem_cons_of_mem _ hq2)) h
          · rw [hl] at h
            refine ih (rest ++ c.parents) _ ?_ h
            intro q hq2
            rcases List.mem_append.mp hq2 with h2 | h2
            · exact hq q (List.mem_cons_of_mem _ h2)
            · exact Reaches.step (hq sha (List.mem_cons_self _ _)) hl h2

theorem isAncestor_sound (commits : List (String × Commit)) (anc d : String)
    (h : isAncestor commits anc d = true) : Reaches commits d anc := by
  refine isAncestorAux_sound commits anc d _ [d] [] ?_ h
  intro q hq
  simp at hq
  subst hq
  exact Reaches.refl q

theorem rankIn_cons_self (k : String) (c : Commit) (t : List (String × Commit)) :
    rankIn ((k, c) :: t) k = 0 := by
  simp [rankIn, List.findIdx_cons]

theorem rankIn_cons_ne (k b : String) (c : Commit) (t : List (String × Commit))
    (h : b ≠ k) : rankIn ((k, c) :: t) b = rankIn t b + 1 := by
  simp [rankIn, List.findIdx_cons, Ne.symm h]

theorem topoOK_parent_rank :
    ∀ (l : List (String × Commit)) (seen : List String),
      topoOKAux seen l = true → ∀ b c, lookup l b = some c → ∀ p ∈ c.parents,
        seen.contains p = true ∨ rankIn l p < rankIn l b := by
  intro l
  induction l with
  | nil => intro seen _ b c hb; simp [lookup] at hb
  | cons hd t ih =>
    obtain ⟨k0, c0⟩ := hd
    intro seen h b c hb p hp
    simp only [topoOKAux] at h
    rw [Bool.and_eq_true] at h
    obtain ⟨h1, h2⟩ := h
    by_cases hbk : b = k0
    · subst hbk
      simp [lookup] at hb
      subst hb
      exact Or.inl (List.all_eq_true.mp h1 p hp)
    · rw [lookup, if_neg hbk] at hb
      rcases ih (k0 :: seen) h2 b c hb p hp with hc | hc
      · by_cases hpk : p = k0
        · subst hpk
          right
          rw [rankIn_cons_self, rankIn_cons_ne p b c0 t hbk]
          omega
        · left
          simpa [hpk] using hc
      · by_cases hpk : p = k0
        · subst hpk
          right
          rw [rankIn_cons_self, rankIn_cons_ne p b c0 t hbk]
          omega
        · right
          rw [rankIn_cons_ne k0 b c0 t hbk, rankIn_cons_ne k0 p c0 t hpk]
          omega

theorem Reaches_rank (commits : List (String × Commit))
    (htopo : topoOKB commits = true) (a b : String) (h : Reaches commits a b) :
    a = b ∨ rankIn commits b < rankIn commits a := by
  induction h with
  | refl => exact Or.inl rfl
  | @step y p c _ hl hp ih =>
    have hres := topoOK_parent_rank commits [] htopo y c hl p hp
    rcases hres with hc | hc
    · simp at hc
    · rcases ih with h1 | h1
      · right
        rw [h1]
        exact hc
      · right
        exact hc.trans h1

theorem isAncestor_antisymm (commits : List (String × Commit))
    (htopo : topoOKB commits = true) (a b : String)
    (hab : isAncestor commits a b = true) (hne : a ≠ b) :
    isAncestor commits b a = false := by
  rcases hba : isAncestor commits b a with _ | _
  · rfl
  · exfalso
    have r1 : Reaches commits b a := isAncestor_sound commits a b hab
    have r2 : Reaches commits a b := isAncestor_sound commits b a hba
    rcases Reaches_rank commits htopo b a r1 with h1 | h1
    · exact hne h1.symm
    · rcases Reaches_rank commits htopo a b r2 with h2 | h2
      · exact hne h2
      · omega

/-- C5: fast-forward correctness.  On a valid attached state whose
current tip `C` is a strict ancestor of the source tip `S` (and not
conversely, which follows from the topological table order), `merge`
creates no commit, moves the current branch to exactly `S`, and reports
the fast-forward kind. -/
theorem C5_merge_fast_forward (s : GitState) (src sha : String) (now : Nat)
    (h S C : String)
    (hv : checkValid s = none) (hinit : s.initialized = true)
    (hdet : s.detached = false) (hhead : s.head = some h) (hsrcne : src ≠ h)
    (hS : lookup s.branches src = some (some S)) (hS0 : S ≠ "")
    (hC : lookup s.branches h = some (some C)) (hC0 : C ≠ "")
    (hCS : C ≠ S) (hanc : isAncestor s.commits C S = true)
    (htopo : topoOKB s.commits = true) :
    mergeC s src sha now =
      (.ok (.ffwd S),
        { s with branches := insertKV s.branches (headKey s) (some S) }) := by
  have hk : headKey s = h := by simp [headKey, hhead]
  have hcur : currentSha s = some C := by
    simp [currentSha, hdet, hk, hC, hC0]
  have hanti : isAncestor s.commits S C = false :=
    isAncestor_antisymm s.commits htopo C S hanc hCS
  have hf : mergeOp s src sha now =
      (.ok (.ffwd S),
        { s with branches := insertKV s.branches (headKey s) (some S) }) := by
    simp [mergeOp, hinit, hdet, hhead, Ne.symm hsrcne, hS, truthyS, hS0, hcur, hC0,
      Ne.symm hCS, hanti, hanc]
  refine runChecked_ok _ s _ _ hv hf ?_
  rw [checkValid_none_iff] at hv ⊢
  obtain ⟨_, h2, h3⟩ := hv
  have hSl : (lookup s.commits S).isSome = true :=
    (branchErr_none_iff s.branches s.commits).mp h2 (src, some S) (lookup_some_mem hS)
      S rfl hS0
  refine ⟨?_, branchErr_none_insert _ _ _ _ h2 (Or.inr hSl), h3⟩
  show headErrOf _ = none
  unfold headErrOf
  rw [if_neg (by simp [hdet])]
  show (match lookup (insertKV s.branches (headKey s) (some S)) (headKey s) with
    | some (some v) =>
      if v = "" then some "HEAD branch does not exist"
      else if (lookup s.commits v).isSome then none
      else some "HEAD branch points to invalid commit"
    | _ => some "HEAD branch does not exist") = none
  rw [lookup_insertKV_self]
  simp [hS0, hSl]

/-- C5 witness: fast-forwarding `master` to the tip of `feat` in the
concrete two-commit chain. -/
theorem C5_witness :
    mergeC c5state "feat" "x" 2 =
      (.ok (.ffwd "bbb2"),
        { c5state with
          branches := insertKV c5state.branches (headKey c5state) (some "bbb2") }) :=
  C5_merge_fast_forward c5state "feat" "x" 2 "master" "bbb2" "aaa1" (by decide)
    (by decide) (by decide) (by decide) (by decide) (by decide) (by decide)
    (by decide) (by decide) (by decide) (by decide) (by decide)

/-- C6: true-merge shape.  When neither tip is an ancestor of the other
and all preconditions hold, `merge` creates exactly one new commit whose
parents are the prior current tip first and the source tip second, and
advances the current branch to it. -/
theorem C6_merge_commit_shape (s : GitState) (src sha : String) (now : Nat)
    (h S C : String)
    (hv : checkValid s = none) (hinit : s.initialized = true)
    (hdet : s.detached = false) (hhead : s.head = some h) (hsrcne : src ≠ h)
    (hS : lookup s.branches src = some (some S)) (hS0 : S ≠ "")
    (hC : lookup s.branches h = some (some C)) (hC0 : C ≠ "")
    (hCS : S ≠ C)
    (ha1 : isAncestor s.commits S C = false)
    (ha2 : isAncestor s.commits C S = false)
    (hsha : sha ≠ "") :
    mergeC s src sha now =
      (.ok (.merged sha),
        { s with
          commits := insertKV s.commits sha
            { sha := sha, message := "Merge branch " ++ src ++ " into " ++ headKey s,
              parents := [C, S], timestamp := now, branch := s.head, isMerge := true },
          branches := insertKV s.branches (headKey s) (some sha) }) ∧
    (∃ mc, lookup (mergeC s src sha now).2.commits sha = some mc ∧
      mc.parents = [C, S] ∧
      lookup (mergeC s src sha now).2.branches (headKey s) = some (some sha)) := by
  have hk : headKey s = h := by simp [headKey, hhead]
  have hcur : currentSha s = some C := by
    simp [currentSha, hdet, hk, hC, hC0]
  have hf : mergeOp s src sha now =
      (.ok (.merged sha),
        { s with
          commits := insertKV s.commits sha
            { sha := sha, message := "Merge branch " ++ src ++ " into " ++ headKey s,
              parents := [C, S], timestamp := now, branch := s.head, isMerge := true },
          branches := insertKV s.branches (headKey s) (some sha) }) := by
    simp [mergeOp, hinit, hdet, hhead, Ne.symm hsrcne, hS, truthyS, hS0, hcur, hC0,
      hCS, ha1, ha2]
  rw [checkValid_none_iff] at hv
  obtain ⟨hh1, h2, h3⟩ := hv
  have hSl : (lookup s.commits S).isSome = true :=
    (branchErr_none_iff s.branches s.commits).mp h2 (src, some S) (lookup_some_mem hS)
      S rfl hS0
  have hCl : (lookup s.commits C).isSome = true :=
    (branchErr_none_iff s.branches s.commits).mp h2 (h, some C) (lookup_some_mem hC)
      C rfl hC0
  have hv' : checkValid s = none := (checkValid_none_iff s).mpr ⟨hh1, h2, h3⟩
  have hpost : checkValid
      { s with
        commits := insertKV s.commits sha
          { sha := sha, message := "Merge branch " ++ src ++ " into " ++ headKey s,
            parents := [C, S], timestamp := now, branch := s.head, isMerge := true },
        branches := insertKV s.branches (headKey s) (some sha) } = none := by
    rw [checkValid_none_iff]
    refine ⟨?_, ?_, ?_⟩
    · show headErrOf _ = none
      unfold headErrOf
      rw [if_neg (by simp [hdet])]
      show (match lookup (insertKV s.branches (headKey s) (some sha)) (headKey s) with
        | some (some v) =>
          if v = "" then some "HEAD branch does not exist"
          else if (lookup (insertKV s.commits sha _) v).isSome then none
          else some "HEAD branch points to invalid commit"
        | _ => some "HEAD branch does not exist") = none
      rw [lookup_insertKV_self]
      simp [hsha, lookup_insertKV_self]
    · exact branchErr_none_insert _ _ _ _ (branchErr_none_mono _ _ _ _ h2)
        (Or.inr (by simp [lookup_insertKV_self]))
    · refine parentErr_none_insert _ _ _ h3 ?_
      intro p hp
      simp at hp
      rcases hp with hp | hp
      · subst hp
        exact lookup_isSome_insertKV _ _ _ _ hCl
      · subst hp
        exact lookup_isSome_insertKV _ _ _ _ hSl
  have hres := runChecked_ok (fun t => mergeOp t src sha now) s _ _ hv' hf hpost
  refine ⟨hres, ?_⟩
  have hl1 : lookup (mergeC s src sha now).2.commits sha = some
      { sha := sha, message := "Merge branch " ++ src ++ " into " ++ headKey s,
        parents := [C, S], timestamp := now, branch := s.head, isMerge := true } := by
    rw [show (mergeC s src sha now) = runChecked (fun t => mergeOp t src sha now) s from rfl,
      hres]
    exact lookup_insertKV_self _ _ _
  have hl2 : lookup (mergeC s src sha now).2.branches (headKey s) = some (some sha) := by
    rw [show (mergeC s src sha now) = runChecked (fun t => mergeOp t src sha now) s from rfl,
      hres]
    exact lookup_insertKV_self _ _ _
  exact ⟨_, hl1, rfl, hl2⟩

/-- C6 witness: a true merge of `feat` into `master` from the concrete
diverged state. -/
theorem C6_witness :
    mergeC c6state "feat" "ddd9" 3 =
      (.ok (.merged "ddd9"),
        { c6state with
          commits := insertKV c6state.commits "ddd9"
            { sha := "ddd9",
              message := "Merge branch " ++ "feat" ++ " into " ++ headKey c6state,
              parents := ["bbb2", "ccc3"], timestamp := 3, branch := c6state.head,
              isMerge := true },
          branches := insertKV c6state.branches (headKey c6state) (some "ddd9") }) ∧
    (∃ mc, lookup (mergeC c6state "feat" "ddd9" 3).2.commits "ddd9" = some mc ∧
      mc.parents = ["bbb2", "ccc3"] ∧
      lookup (mergeC c6state "feat" "ddd9" 3).2.branches (headKey c6state) =
        some (some "ddd9")) :=
  C6_merge_commit_shape c6state "feat" "ddd9" 3 "master" "ccc3" "bbb2" (by decide)
    (by decide) (by decide) (by decide) (by decide) (by decide) (by decide)
    (by decide) (by decide) (by decide) (by decide) (by decide) (by decide)

/-- C8: push/pull convergence.  On a valid attached state whose current
branch has a commit, `push()` records the local tip as the remote tip,
and an immediately following `pull()` reports "up to date" and changes
nothing; local and remote tips then agree. -/
theorem C8_push_then_pull_up_to_date (s : GitState) (h t : String)
    (hv : checkValid s = none) (hinit : s.initialized = true)
    (hdet : s.detached = false) (hhead : s.head = some h) (hh0 : h ≠ "")
    (ht : lookup s.branches h = some (some t)) (ht0 : t ≠ "") :
    pushC s none =
      (.ok { branch := h, sha := t, isNew := (lookup s.remote h).isNone,
             wasUpToDate := lookup s.remote h = some t },
        { s with remote := insertKV s.remote h t }) ∧
    pullC { s with remote := insertKV s.remote h t } none =
      (.ok (.upToDate h), { s with remote := insertKV s.remote h t }) ∧
    lookup ({ s with remote := insertKV s.remote h t } : GitState).branches h =
      some (some t) ∧
    lookup ({ s with remote := insertKV s.remote h t } : GitState).remote h = some t := by
  have hfpush : pushOp s none =
      (.ok { branch := h, sha := t, isNew := (lookup s.remote h).isNone,
             wasUpToDate := lookup s.remote h = some t },
        { s with remote := insertKV s.remote h t }) := by
    simp [pushOp, pushPullName, hinit, hdet, hhead, truthyS, hh0, ht, ht0]
  have hvpost : checkValid { s with remote := insertKV s.remote h t } = none := hv
  have hfpull : pullOp { s with remote := insertKV s.remote h t } none =
      (.ok (.upToDate h), { s with remote := insertKV s.remote h t }) := by
    simp [pullOp, pushPullName, hinit, hdet, hhead, truthyS, hh0,
      lookup_insertKV_self, ht0, ht]
  refine ⟨runChecked_ok _ s _ _ hv hfpush hvpost, ?_, ht, lookup_insertKV_self _ _ _⟩
  exact runChecked_ok _ _ _ _ hvpost hfpull hvpost

/-- C8 witness: pushing and then pulling `master` on the concrete
one-commit repository. -/
theorem C8_witness :
    pushC c8state none =
      (.ok { branch := "master", sha := "aaa7", isNew := (lookup c8state.remote "master").isNone,
             wasUpToDate := lookup c8state.remote "master" = some "aaa7" },
        { c8state with remote := insertKV c8state.remote "master" "aaa7" }) ∧
    pullC { c8state with remote := insertKV c8state.remote "master" "aaa7" } none =
      (.ok (.upToDate "master"),
        { c8state with remote := insertKV c8state.remote "master" "aaa7" }) ∧
    lookup ({ c8state with remote := insertKV c8state.remote "master" "aaa7" } : GitState).branches
      "master" = some (some "aaa7") ∧
    lookup ({ c8state with remote := insertKV c8state.remote "master" "aaa7" } : GitState).remote
      "master" = some "aaa7" :=
  C8_push_then_pull_up_to_date c8state "master" "aaa7" (by decide) (by decide)
    (by decide) (by decide) (by decide) (by decide) (by decide)

theorem replayAux_tip (hd : Option String) (now : Nat) (supply : Nat → String) :
    ∀ (olds : List Commit) (i : Nat) (tbl : List (String × Commit)) (base : String),
      olds ≠ [] →
      (replayAux hd now supply olds i tbl base).2 = supply (i + olds.length - 1) := by
  intro olds
  induction olds with
  | nil => intro i tbl base hne; exact absurd rfl hne
  | cons o os ih =>
    intro i tbl base _
    rcases hos : os with _ | ⟨o2, os2⟩
    · simp [replayAux]
    · rw [← hos]
      have hne2 : os ≠ [] := by simp [hos]
      show (replayAux hd now supply os (i + 1) _ (supply i)).2 = _
      rw [ih (i + 1) _ (supply i) hne2]
      congr 1
      simp only [List.length_cons]
      omega

theorem replay_lookup_mono (hd : Option String) (now : Nat) (supply : Nat → String) :
    ∀ (olds : List Commit) (i : Nat) (tbl : List (String × Commit)) (base : String)
      (k : String), (lookup tbl k).isSome = true →
      (lookup (replayAux hd now supply olds i tbl base).1 k).isSome = true := by
  intro olds
  induction olds with
  | nil => intro i tbl base k h; exact h
  | cons o os ih =>
    intro i tbl base k h
    exact ih (i + 1) _ (supply i) k (lookup_isSome_insertKV _ _ _ _ h)

theorem replayAux_keep (hd : Option String) (now : Nat) (supply : Nat → String) :
    ∀ (olds : List Commit) (i : Nat) (tbl : List (String × Commit)) (base : String)
      (k : String), (∀ j, j < olds.length → k ≠ supply (i + j)) →
      lookup (replayAux hd now supply olds i tbl base).1 k = lookup tbl k := by
  intro olds
  induction olds with
  | nil => intro i tbl base k _; rfl
  | cons o os ih =>
    intro i tbl base k hk
    show lookup (replayAux hd now supply os (i + 1) _ (supply i)).1 k = _
    rw [ih (i + 1) _ (supply i) k (by
      intro j hj
      have := hk (j + 1) (by simp only [List.length_cons]; omega)
      rwa [show i + (j + 1) = i + 1 + j by omega] at this)]
    refine lookup_insertKV_ne _ _ _ _ ?_
    have := hk 0 (by simp)
    rwa [show i + 0 = i by omega] at this

theorem replayAux_new (hd : Option String) (now : Nat) (supply : Nat → String) :
    ∀ (olds : List Commit) (i : Nat) (tbl : List (String × Commit)) (base : String),
      (∀ j1, j1 < olds.length → ∀ j2, j2 < olds.length → j1 ≠ j2 →
        supply (i + j1) ≠ supply (i + j2)) →
      ∀ j (hj : j < olds.length),
        lookup (replayAux hd now supply olds i tbl base).1 (supply (i + j)) =
          some (replayCommit hd now (olds.get ⟨j, hj⟩)
            (if j = 0 then base else supply (i + j - 1)) (supply (i + j))) := by
  intro olds
  induction olds with
  | nil => intro i tbl base _ j hj; simp at hj
  | cons o os ih =>
    intro i tbl base hdist j hj
    show lookup (replayAux hd now supply os (i + 1) _ (supply i)).1 _ = _
    rcases j with _ | j'
    · rw [replayAux_keep hd now supply os (i + 1) _ (supply i) (supply (i + 0)) (by
        intro j2 hj2
        have := hdist 0 (by simp) (j2 + 1) (by simp only [List.length_cons]; omega)
          (by omega)
        rwa [show i + (j2 + 1) = i + 1 + j2 by omega] at this)]
      rw [show i + 0 = i by omega]
      rw [lookup_insertKV_self]
      rfl
    · have hj' : j' < os.length := by
        simp [List.length_cons] at hj
        omega
      have hdist' : ∀ j1, j1 < os.length → ∀ j2, j2 < os.length → j1 ≠ j2 →
          supply (i + 1 + j1) ≠ supply (i + 1 + j2) := by
        intro j1 h1 j2 h2 hne
        have := hdist (j1 + 1) (by simp only [List.length_cons]; omega) (j2 + 1)
          (by simp only [List.length_cons]; omega) (by omega)
        rwa [show i + (j1 + 1) = i + 1 + j1 by omega,
          show i + (j2 + 1) = i + 1 + j2 by omega] at this
      have := ih (i + 1) (insertKV tbl (supply i) (replayCommit hd now o base (supply i)))
        (supply i) hdist' j' hj'
      rw [show i + (j' + 1) = i + 1 + j' by omega]
      rw [this]
      rcases j' with _ | j''
      · have e0 : i + 1 + 0 - 1 = i := by omega
        simp [e0]
      · have e1 : i + 1 + (j'' + 1) - 1 = i + (j'' + 2) - 1 := by omega
        simp only [Nat.succ_ne_zero, if_false, e1]
        rfl

theorem replayAux_mem (hd : Option String) (now : Nat) (supply : Nat → String) :
    ∀ (olds : List Commit) (i : Nat) (tbl : List (String × Commit)) (base : String)
      (x : String × Commit), x ∈ (replayAux hd now supply olds i tbl base).1 →
      x ∈ tbl ∨ ∃ j, ∃ hj : j < olds.length,
        x = (supply (i + j), replayCommit hd now (olds.get ⟨j, hj⟩)
          (if j = 0 then base else supply (i + j - 1)) (supply (i + j))) := by
  intro olds
  induction olds with
  | nil => intro i tbl base x hx; exact Or.inl hx
  | cons o os ih =>
    intro i tbl base x hx
    rcases ih (i + 1) _ (supply i) x hx with h1 | ⟨j', hj', h1⟩
    · rcases mem_insertKV h1 with h2 | h2
      · exact Or.inl h2
      · refine Or.inr ⟨0, by simp, ?_⟩
        rw [show i + 0 = i by omega]
        simpa using h2
    · refine Or.inr ⟨j' + 1, by simp only [List.length_cons]; omega, ?_⟩
      rw [show i + (j' + 1) = i + 1 + j' by omega]
      rw [h1]
      rcases j' with _ | j''
      · have e0 : i + 1 + 0 - 1 = i := by omega
        simp [e0]
      · have e1 : i + 1 + (j'' + 1) - 1 = i + (j'' + 2) - 1 := by omega
        simp only [Nat.succ_ne_zero, if_false, e1]
        rfl

theorem walkBack_chain (T : List (String × Commit)) (supply : Nat → String)
    (base : String) :
    ∀ (len : Nat), 0 < len →
      (∀ j, j < len → ∃ c, lookup T (supply j) = some c ∧
        c.parents = [if j = 0 then base else supply (j - 1)]) →
      walkBack T (some (supply (len - 1))) len = some base := by
  intro len
  induction len with
  | zero => intro h; omega
  | succ n ih =>
    intro _ hc
    obtain ⟨c, hl, hp⟩ := hc n (by omega)
    show walkBack T (some (supply (n + 1 - 1))) (n + 1) = some base
    rw [show n + 1 - 1 = n by omega]
    rcases hn : n with _ | n'
    · subst hn
      simp only [walkBack, hl, hp]
      simp [walkBack]
    · subst hn
      simp only [walkBack, hl, hp]
      have := ih (by omega) (fun j hj => hc j (by omega))
      rw [show n' + 1 - 1 = n' by omega] at this
      simpa [walkBack] using this

theorem branchErr_none_of_mono (bs : List (String × Option String))
    (cs cs' : List (String × Commit))
    (hmono : ∀ x, (lookup cs x).isSome = true → (lookup cs' x).isSome = true)
    (h : branchErr bs cs = none) : branchErr bs cs' = none := by
  rw [branchErr_none_iff] at h ⊢
  intro p hp v hv hne
  exact hmono v (h p hp v hv hne)

theorem parentErr_none_of (cs' cs : List (String × Commit))
    (h : parentErr cs cs = none)
    (hmono : ∀ x, (lookup cs x).isSome = true → (lookup cs' x).isSome = true)
    (hmem : ∀ p ∈ cs', p ∈ cs ∨ ∀ q ∈ p.2.parents, (lookup cs' q).isSome = true) :
    parentErr cs' cs' = none := by
  rw [parentErr_none_iff] at h ⊢
  intro p hp q hq
  rcases hmem p hp with h1 | h1
  · exact hmono q (h p h1 q hq)
  · exact h1 q hq

/-- C7: rebase linearization.  When `rebase` replays the nonempty
divergent segment, walking the first-parent chain from the new tip
exactly `k` steps reaches the target tip; every replayed commit has
exactly one parent and carries the message (and original id) of the
commit it replaces; the current branch is advanced to the new tip. -/
theorem C7_rebase_linearizes (s : GitState) (tgt : String) (supply : Nat → String)
    (now : Nat) (h T C : String)
    (hv : checkValid s = none) (hinit : s.initialized = true)
    (hdet : s.detached = false) (hhead : s.head = some h) (htgtne : tgt ≠ h)
    (hT : lookup s.branches tgt = some (some T)) (hT0 : T ≠ "")
    (hC : lookup s.branches h = some (some C)) (hC0 : C ≠ "")
    (hne : replaySet s C T ≠ [])
    (_hfresh : ∀ j, j < (replaySet s C T).length → lookup s.commits (supply j) = none)
    (hdist : ∀ j1, j1 < (replaySet s C T).length → ∀ j2, j2 < (replaySet s C T).length →
      j1 ≠ j2 → supply j1 ≠ supply j2)
    (hsup0 : ∀ j, j < (replaySet s C T).length → supply j ≠ "") :
    ∃ s2 : GitState,
      rebaseC s tgt supply now =
        (.ok (.done (replaySet s C T).length
          (supply ((replaySet s C T).length - 1))), s2) ∧
      walkBack s2.commits (some (supply ((replaySet s C T).length - 1)))
        (replaySet s C T).length = some T ∧
      (∀ j (hj : j < (replaySet s C T).length),
        ∃ c, lookup s2.commits (supply j) = some c ∧
          c.parents = [if j = 0 then T else supply (j - 1)] ∧
          c.message = ((replaySet s C T).get ⟨j, hj⟩).message ∧
          c.originalSha = some ((replaySet s C T).get ⟨j, hj⟩).sha) ∧
      lookup s2.branches (headKey s) =
        some (some (supply ((replaySet s C T).length - 1))) := by
  have hk : headKey s = h := by simp [headKey, hhead]
  have hcur : currentSha s = some C := by simp [currentSha, hdet, hk, hC, hC0]
  have hpos : 0 < (replaySet s C T).length := by
    rcases he : replaySet s C T with _ | _
    · exact absurd he hne
    · simp
  have hdist0 : ∀ j1, j1 < (replaySet s C T).length → ∀ j2, j2 < (replaySet s C T).length →
      j1 ≠ j2 → supply (0 + j1) ≠ supply (0 + j2) := by
    intro j1 h1 j2 h2 hnej
    rw [show 0 + j1 = j1 by omega, show 0 + j2 = j2 by omega]
    exact hdist j1 h1 j2 h2 hnej
  have hnew : ∀ j (hj : j < (replaySet s C T).length),
      lookup (replayAux s.head now supply (replaySet s C T) 0 s.commits T).1 (supply j) =
        some (replayCommit s.head now ((replaySet s C T).get ⟨j, hj⟩)
          (if j = 0 then T else supply (j - 1)) (supply j)) := by
    intro j hj
    have := replayAux_new s.head now supply (replaySet s C T) 0 s.commits T hdist0 j hj
    rwa [show 0 + j = j by omega] at this
  have htip : (replayAux s.head now supply (replaySet s C T) 0 s.commits T).2 =
      supply ((replaySet s C T).length - 1) := by
    have := replayAux_tip s.head now supply (replaySet s C T) 0 s.commits T hne
    rwa [show 0 + (replaySet s C T).length - 1 = (replaySet s C T).length - 1 by omega]
      at this
  have hmono : ∀ x, (lookup s.commits x).isSome = true →
      (lookup (replayAux s.head now supply (replaySet s C T) 0 s.commits T).1 x).isSome
        = true :=
    fun x hx => replay_lookup_mono s.head now supply (replaySet s C T) 0 s.commits T x hx
  have hempty : (getCommitsSince s.commits C (getAllAncestors s.commits T)).isEmpty
      = false := by
    rcases he : getCommitsSince s.commits C (getAllAncestors s.commits T) with _ | _
    · exact absurd (by simpa [replaySet] using he) hne
    · rfl
  have hf : rebaseOp s tgt supply now =
      (.ok (.done (replaySet s C T).length
        (replayAux s.head now supply (replaySet s C T) 0 s.commits T).2),
        { s with
          commits := (replayAux s.head now supply (replaySet s C T) 0 s.commits T).1,
          branches := insertKV s.branches (headKey s)
            (some (replayAux s.head now supply (replaySet s C T) 0 s.commits T).2) }) := by
    simp [rebaseOp, replaySet, hinit, hdet, hhead, Ne.symm htgtne, hT, truthyS, hT0,
      hcur, hC0, hempty]
  rw [htip] at hf
  rw [checkValid_none_iff] at hv
  obtain ⟨hh1, h2, h3⟩ := hv
  have hv' : checkValid s = none := (checkValid_none_iff s).mpr ⟨hh1, h2, h3⟩
  have hTl : (lookup s.commits T).isSome = true :=
    (branchErr_none_iff s.branches s.commits).mp h2 (tgt, some T) (lookup_some_mem hT)
      T rfl hT0
  have htipne : supply ((replaySet s C T).length - 1) ≠ "" :=
    hsup0 _ (by omega)
  have htipl : (lookup (replayAux s.head now supply (replaySet s C T) 0 s.commits T).1
      (supply ((replaySet s C T).length - 1))).isSome = true := by
    rw [hnew _ (by omega)]
    rfl
  have hpost : checkValid
      { s with
        commits := (replayAux s.head now supply (replaySet s C T) 0 s.commits T).1,
        branches := insertKV s.branches (headKey s)
          (some (supply ((replaySet s C T).length - 1))) } = none := by
    rw [checkValid_none_iff]
    refine ⟨?_, ?_, ?_⟩
    · show headErrOf _ = none
      unfold headErrOf
      rw [if_neg (by simp [hdet])]
      show (match lookup (insertKV s.branches (headKey s)
          (some (supply ((replaySet s C T).length - 1)))) (headKey s) with
        | some (some v) =>
          if v = "" then some "HEAD branch does not exist"
          else if (lookup (replayAux s.head now supply (replaySet s C T) 0
              s.commits T).1 v).isSome then none
          else some "HEAD branch points to invalid commit"
        | _ => some "HEAD branch does not exist") = none
      rw [lookup_insertKV_self]
      simp [htipne, htipl]
    · exact branchErr_none_insert _ _ _ _
        (branchErr_none_of_mono s.branches s.commits _ hmono h2) (Or.inr htipl)
    · refine parentErr_none_of _ s.commits h3 hmono ?_
      intro p hp
      rcases replayAux_mem s.head now supply (replaySet s C T) 0 s.commits T p hp
        with h1 | ⟨j, hj, h1⟩
      · exact Or.inl h1
      · right
        intro q hq
        rw [h1] at hq
        simp only [replayCommit, List.mem_singleton] at hq
        subst hq
        rcases j with _ | j'
        · simpa using hmono T hTl
        · have hj' : j' < (replaySet s C T).length := by omega
          rw [if_neg (by omega)]
          rw [show 0 + (j' + 1) - 1 = j' by omega]
          rw [hnew j' hj']
          rfl
  have hres := runChecked_ok (fun t => rebaseOp t tgt supply now) s _ _ hv' hf hpost
  refine ⟨_, hres, ?_, ?_, ?_⟩
  · refine walkBack_chain _ supply T (replaySet s C T).length hpos ?_
    intro j hj
    exact ⟨_, hnew j hj, rfl⟩
  · intro j hj
    exact ⟨_, hnew j hj, rfl, rfl, rfl⟩
  · exact lookup_insertKV_self _ _ _

/-- C7 witness: rebasing `feat` (two own commits) onto `master` in the
concrete diverged repository, with fresh generated shas. -/
theorem C7_witness :
    ∃ s2 : GitState,
      rebaseC c7state "master" c7supply 9 =
        (.ok (.done (replaySet c7state "ddd4" "bbb2").length
          (c7supply ((replaySet c7state "ddd4" "bbb2").length - 1))), s2) ∧
      walkBack s2.commits (some (c7supply ((replaySet c7state "ddd4" "bbb2").length - 1)))
        (replaySet c7state "ddd4" "bbb2").length = some "bbb2" ∧
      (∀ j (hj : j < (replaySet c7state "ddd4" "bbb2").length),
        ∃ c, lookup s2.commits (c7supply j) = some c ∧
          c.parents = [if j = 0 then "bbb2" else c7supply (j - 1)] ∧
          c.message = ((replaySet c7state "ddd4" "bbb2").get ⟨j, hj⟩).message ∧
          c.originalSha = some ((replaySet c7state "ddd4" "bbb2").get ⟨j, hj⟩).sha) ∧
      lookup s2.branches (headKey c7state) =
        some (some (c7supply ((replaySet c7state "ddd4" "bbb2").length - 1))) :=
  C7_rebase_linearizes c7state "master" c7supply 9 "feat" "bbb2" "ddd4"
    (by decide) (by decide) (by decide) (by decide) (by decide) (by decide)
    (by decide) (by decide) (by decide) (by decide) (by decide) (by decide)
    (by decide)

theorem truthyS_some (o : Option String) (h : truthyS o = true) :
    ∃ x, o = some x ∧ x ≠ "" := by
  rcases o with _ | x
  · simp [truthyS] at h
  · refine ⟨x, rfl, ?_⟩
    simpa [truthyS] using h

theorem countNone_insertKV_some (bs : List (String × Option String)) (k t : String) :
    countNone (insertKV bs k (some t)) ≤ countNone bs := by
  induction bs with
  | nil => simp [insertKV, countNone]
  | cons hd rest ih =>
    obtain ⟨k0, v0⟩ := hd
    by_cases hk : k = k0
    · subst hk
      rcases v0 with _ | w
      · simp only [insertKV, if_pos rfl, countNone, List.filter_cons]
        simp
      · simp only [insertKV, if_pos rfl, countNone, List.filter_cons]
        simp
    · simp only [insertKV, if_neg hk, countNone, List.filter_cons]
      rcases v0 with _ | w
      · simpa [countNone] using ih
      · simpa [countNone] using ih

theorem countNone_branchesShape (s : GitState) (bs2 : List (String × Option String))
    (h : branchesShape s bs2) : countNone bs2 ≤ countNone s.branches := by
  rcases h with h | ⟨k, t, h⟩
  · rw [h]
  · rw [h]
    exact countNone_insertKV_some _ _ _

theorem runChecked_preserve {α : Type} (f : GitState → Except String α × GitState)
    (s : GitState) (P : GitState → Prop) (hs : P s)
    (hraw : checkValid s = none → P (f s).2) : P (runChecked f s).2 := by
  rcases h : checkValid s with _ | e
  · have hp := hraw h
    rcases hf : f s with ⟨r, s1⟩
    rw [hf] at hp
    rcases r with e | a
    · simpa [runChecked, h, hf] using hp
    · simp only [runChecked, h, hf]
      rcases checkValid s1 with _ | e2 <;> simpa using hp
  · simpa [runChecked, h] using hs

theorem currentSha_isSome (s : GitState) (hv : checkValid s = none)
    (hhd : s.head.isSome = true) : ∃ x, currentSha s = some x := by
  rcases hdet : s.detached with _ | _
  · obtain ⟨v, _, hc, _, _⟩ := currentSha_attached_valid s hdet hv
    exact ⟨v, hc⟩
  · obtain ⟨x, hx⟩ := Option.isSome_iff_exists.mp hhd
    exact ⟨x, by simp [currentSha, hdet, hx]⟩

theorem brcase_commit (s : GitState) (msg sha : String) (now : Nat) :
    branchesShape s (commitOp s msg sha now).2.branches := by
  unfold branchesShape
  simp only [commitOp]
  split
  · exact Or.inl rfl
  · split
    · exact Or.inl rfl
    · exact Or.inr ⟨_, _, rfl⟩

theorem brcase_branch (s : GitState) (name : String) :
    branchesShape s (branchOp s name).2.branches := by
  unfold branchesShape
  simp only [branchOp]
  split
  · exact Or.inl rfl
  · split
    · exact Or.inl rfl
    · split
      · exact Or.inl rfl
      · next hcond =>
        obtain ⟨t, ht, _⟩ := truthyS_some _ (by
          rcases hc : truthyS (currentSha s) with _ | _
          · exact absurd hc hcond
          · rfl)
        rw [ht]
        exact Or.inr ⟨_, _, rfl⟩

theorem brcase_checkout (s : GitState) (target : String) :
    branchesShape s (checkoutOp s target).2.branches := by
  unfold branchesShape
  simp only [checkoutOp]
  split
  · exact Or.inl rfl
  · split
    · exact Or.inl rfl
    · split
      · exact Or.inl rfl
      · exact Or.inl rfl

theorem brcase_checkoutNewBranch (s : GitState) (name : String)
    (hv : checkValid s = none) (hhd : s.head.isSome = true) :
    branchesShape s (checkoutNewBranchOp s name).2.branches := by
  unfold branchesShape
  simp only [checkoutNewBranchOp]
  split
  · exact Or.inl rfl
  · split
    · exact Or.inl rfl
    · obtain ⟨x, hx⟩ := currentSha_isSome s hv hhd
      rw [hx]
      exact Or.inr ⟨_, _, rfl⟩

theorem brcase_merge (s : GitState) (src sha : String) (now : Nat) :
    branchesShape s (mergeOp s src sha now).2.branches := by
  unfold branchesShape
  simp only [mergeOp]
  split
  · exact Or.inl rfl
  · split
    · exact Or.inl rfl
    · split
      · exact Or.inl rfl
      · split
        · exact Or.inl rfl
        · split
          · exact Or.inl rfl
          · split
            · exact Or.inl rfl
            · split
              · exact Or.inl rfl
              · split
                · exact Or.inr ⟨_, _, rfl⟩
                · exact Or.inr ⟨_, _, rfl⟩

theorem brcase_rebase (s : GitState) (tgt : String) (supply : Nat → String) (now : Nat) :
    branchesShape s (rebaseOp s tgt supply now).2.branches := by
  unfold branchesShape
  simp only [rebaseOp]
  split
  · exact Or.inl rfl
  · split
    · exact Or.inl rfl
    · split
      · exact Or.inl rfl
      · split
        · exact Or.inl rfl
        · split
          · exact Or.inl rfl
          · split
            · exact Or.inl rfl
            · split
              · exact Or.inl rfl
              · exact Or.inr ⟨_, _, rfl⟩

theorem brcase_cherryPick (s : GitState) (sha newSha : String) (now : Nat) :
    branchesShape s (cherryPickOp s sha newSha now).2.branches := by
  unfold branchesShape
  simp only [cherryPickOp]
  split
  · exact Or.inl rfl
  · split
    · exact Or.inl rfl
    · split
      · exact Or.inl rfl
      · exact Or.inr ⟨_, _, rfl⟩

theorem brcase_resetHard (s : GitState) (target : String)
    (hv : checkValid s = none) :
    branchesShape s (resetHardOp s target).2.branches := by
  unfold branchesShape
  simp only [resetHardOp]
  split
  · exact Or.inl rfl
  · next hdet0 =>
    split
    · exact Or.inl rfl
    · next hdet =>
      have hdetf : s.detached = false := by
        rcases hd : s.detached with _ | _
        · rfl
        · exact absurd hd hdet
      split
      · split
        · exact Or.inl rfl
        · next hcond =>
          obtain ⟨t, ht, _⟩ := truthyS_some _ (by
            rcases hc : truthyS (walkBack s.commits (currentSha s) _) with _ | _
            · exact absurd hc hcond
            · rfl)
          rw [ht]
          exact Or.inr ⟨_, _, rfl⟩
      · split
        · obtain ⟨v, _, hc, _, _⟩ := currentSha_attached_valid s hdetf hv
          rw [hc]
          exact Or.inr ⟨_, _, rfl⟩
        · split
          · exact Or.inr ⟨_, _, rfl⟩
          · split
            · exact Or.inr ⟨_, _, rfl⟩
            · exact Or.inl rfl

theorem brcase_stash (s : GitState) :
    branchesShape s (stashOp s).2.branches := by
  unfold branchesShape
  simp only [stashOp]
  split
  · exact Or.inl rfl
  · split
    · exact Or.inl rfl
    · exact Or.inl rfl

theorem brcase_stashPop (s : GitState) :
    branchesShape s (stashPopOp s).2.branches := by
  unfold branchesShape
  simp only [stashPopOp]
  split
  · exact Or.inl rfl
  · split
    · exact Or.inl rfl
    · exact Or.inl rfl

theorem brcase_tag (s : GitState) (name : String) (target : Option String) :
    branchesShape s (tagOp s name target).2.branches := by
  unfold branchesShape
  simp only [tagOp]
  split
  · exact Or.inl rfl
  · split
    · exact Or.inl rfl
    · split
      · exact Or.inl rfl
      · split
        · exact Or.inl rfl
        · exact Or.inl rfl

theorem brcase_push (s : GitState) (branchName : Option String) :
    branchesShape s (pushOp s branchName).2.branches := by
  unfold branchesShape
  simp only [pushOp]
  split
  · exact Or.inl rfl
  · split
    · exact Or.inl rfl
    · split
      · exact Or.inl rfl
      · split
        · exact Or.inl rfl
        · exact Or.inl rfl

theorem brcase_pull (s : GitState) (branchName : Option String) :
    branchesShape s (pullOp s branchName).2.branches := by
  unfold branchesShape
  simp only [pullOp]
  split
  · exact Or.inl rfl
  · split
    · exact Or.inl rfl
    · split
      · exact Or.inl rfl
      · split
        · exact Or.inl rfl
        · split
          · exact Or.inl rfl
          · exact Or.inr ⟨_, _, rfl⟩

/-- C3: after `init` exactly the default branch maps to null, and every
public operation — `checkoutNewBranch` before any commit included, since
the wrapper state check rejects that call — keeps the number of
null-target branches at most one. -/
theorem C3_at_most_one_null_branch (s : GitState)
    (msg sha name target src tgt pfx : String) (tgtO brO : Option String)
    (supply : Nat → String) (now : Nat)
    (hhd : s.head.isSome = true) (hcount : countNone s.branches ≤ 1) :
    (countNone initOp.branches = 1 ∧ lookup initOp.branches "master" = some none) ∧
    countNone (commitC s msg sha now).2.branches ≤ 1 ∧
    countNone (branchC s name).2.branches ≤ 1 ∧
    countNone (checkoutC s target).2.branches ≤ 1 ∧
    countNone (checkoutNewBranchC s name).2.branches ≤ 1 ∧
    countNone (mergeC s src sha now).2.branches ≤ 1 ∧
    countNone (rebaseC s tgt supply now).2.branches ≤ 1 ∧
    countNone (cherryPickC s pfx sha now).2.branches ≤ 1 ∧
    countNone (resetHardC s target).2.branches ≤ 1 ∧
    countNone (stashC s).2.branches ≤ 1 ∧
    countNone (stashPopC s).2.branches ≤ 1 ∧
    countNone (tagC s name tgtO).2.branches ≤ 1 ∧
    countNone (pushC s brO).2.branches ≤ 1 ∧
    countNone (pullC s brO).2.branches ≤ 1 := by
  refine ⟨⟨by decide, by decide⟩, ?_, ?_, ?_, ?_, ?_, ?_, ?_, ?_, ?_, ?_, ?_, ?_, ?_⟩
  · exact le_trans (runChecked_preserve _ s
      (fun u => countNone u.branches ≤ countNone s.branches) (le_refl _)
      (fun _ => countNone_branchesShape s _ (brcase_commit s msg sha now))) hcount
  · exact le_trans (runChecked_preserve _ s
      (fun u => countNone u.branches ≤ countNone s.branches) (le_refl _)
      (fun _ => countNone_branchesShape s _ (brcase_branch s name))) hcount
  · exact le_trans (runChecked_preserve _ s
      (fun u => countNone u.branches ≤ countNone s.branches) (le_refl _)
      (fun _ => countNone_branchesShape s _ (brcase_checkout s target))) hcount
  · exact le_trans (runChecked_preserve _ s
      (fun u => countNone u.branches ≤ countNone s.branches) (le_refl _)
      (fun hv => countNone_branchesShape s _
        (brcase_checkoutNewBranch s name hv hhd))) hcount
  · exact le_trans (runChecked_preserve _ s
      (fun u => countNone u.branches ≤ countNone s.branches) (le_refl _)
      (fun _ => countNone_branchesShape s _ (brcase_merge s src sha now))) hcount
  · exact le_trans (runChecked_preserve _ s
      (fun u => countNone u.branches ≤ countNone s.branches) (le_refl _)
      (fun _ => countNone_branchesShape s _ (brcase_rebase s tgt supply now))) hcount
  · exact le_trans (runChecked_preserve _ s
      (fun u => countNone u.branches ≤ countNone s.branches) (le_refl _)
      (fun _ => countNone_branchesShape s _ (brcase_cherryPick s pfx sha now))) hcount
  · exact le_trans (runChecked_preserve _ s
      (fun u => countNone u.branches ≤ countNone s.branches) (le_refl _)
      (fun hv => countNone_branchesShape s _ (brcase_resetHard s target hv))) hcount
  · exact le_trans (runChecked_preserve _ s
      (fun u => countNone u.branches ≤ countNone s.branches) (le_refl _)
      (fun _ => countNone_branchesShape s _ (brcase_stash s))) hcount
  · exact le_trans (runChecked_preserve _ s
      (fun u => countNone u.branches ≤ countNone s.branches) (le_refl _)
      (fun _ => countNone_branchesShape s _ (brcase_stashPop s))) hcount
  · exact le_trans (runChecked_preserve _ s
      (fun u => countNone u.branches ≤ countNone s.branches) (le_refl _)
      (fun _ => countNone_branchesShape s _ (brcase_tag s name tgtO))) hcount
  · exact le_trans (runChecked_preserve _ s
      (fun u => countNone u.branches ≤ countNone s.branches) (le_refl _)
      (fun _ => countNone_branchesShape s _ (brcase_push s brO))) hcount
  · exact le_trans (runChecked_preserve _ s
      (fun u => countNone u.branches ≤ countNone s.branches) (le_refl _)
      (fun _ => countNone_branchesShape s _ (brcase_pull s brO))) hcount

/-- C3 witness: the preservation theorem applied at a concrete state with
one null branch, projected on the `checkoutNewBranch` operation. -/
theorem C3_witness :
    countNone (checkoutNewBranchC c3state "nb").2.branches ≤ 1 :=
  (C3_at_most_one_null_branch c3state "m" "zz9" "nb" "master" "dev" "dev" "aa"
    none none (fun _ => "ss1") 0 (by decide) (by decide)).2.2.2.2.1

theorem detached_head_valid (s : GitState) (hdet : s.detached = true)
    (hv : checkValid s = none) : (lookup s.commits (headKey s)).isSome = true := by
  rw [checkValid_none_iff] at hv
  obtain ⟨h1, _, _⟩ := hv
  unfold headErrOf at h1
  rw [if_pos (by simp [hdet])] at h1
  rcases hli : (lookup s.commits (headKey s)).isSome with _ | _
  · rw [if_neg (by simp [hli])] at h1
    simp at h1
  · rfl

theorem currentSha_lookup_valid (s : GitState) (hv : checkValid s = none) :
    ∀ t, currentSha s = some t → (lookup s.commits t).isSome = true := by
  intro t ht
  rcases hdet : s.detached with _ | _
  · obtain ⟨v, _, hc, _, hl⟩ := currentSha_attached_valid s hdet hv
    rw [hc] at ht
    injection ht with ht
    rw [← ht]
    exact hl
  · have hh : s.head = some t := by
      simpa [currentSha, hdet] using ht
    have := detached_head_valid s hdet hv
    rwa [show headKey s = t by simp [headKey, hh]] at this

theorem walkBack_isSome (cs : List (String × Commit))
    (hnd : ∀ p ∈ cs, ∀ q ∈ p.2.parents, (lookup cs q).isSome = true) :
    ∀ (n : Nat) (cur : Option String) (r : String), walkBack cs cur n = some r →
      (∀ x, cur = some x → (lookup cs x).isSome = true) →
      (lookup cs r).isSome = true := by
  intro n
  induction n with
  | zero =>
    intro cur r h hval
    rcases cur with _ | c
    · simp [walkBack] at h
    · exact hval r (by rw [show walkBack cs (some c) 0 = some c from rfl] at h; exact h)
  | succ m ih =>
    intro cur r h hval
    rcases cur with _ | c
    · simp [walkBack] at h
    · rcases hl : lookup cs c with _ | cc
      · simp [walkBack, hl] at h
      · rcases hp : cc.parents with _ | ⟨p, rest⟩
        · simp [walkBack, hl, hp] at h
        · simp only [walkBack, hl, hp] at h
          refine ih (some p) r h ?_
          intro x hx
          injection hx with hx
          rw [← hx]
          exact hnd (c, cc) (lookup_some_mem hl) p (by simp [hp])

theorem replay_supply_isSome (hd : Option String) (now : Nat) (supply : Nat → String) :
    ∀ (olds : List Commit) (i : Nat) (tbl : List (String × Commit)) (base : String)
      (j : Nat), j < olds.length →
      (lookup (replayAux hd now supply olds i tbl base).1 (supply (i + j))).isSome
        = true := by
  intro olds
  induction olds with
  | nil => intro i tbl base j hj; simp at hj
  | cons o os ih =>
    intro i tbl base j hj
    rcases j with _ | j'
    · rw [show i + 0 = i by omega]
      exact replay_lookup_mono hd now supply os (i + 1) _ (supply i) (supply i)
        (by rw [lookup_insertKV_self]; rfl)
    · rw [show i + (j' + 1) = i + 1 + j' by omega]
      exact ih (i + 1) _ (supply i) j' (by simp only [List.length_cons] at hj; omega)

theorem noDanglingB_iff (cs : List (String × Commit)) :
    noDanglingB cs = true ↔
      ∀ p ∈ cs, ∀ q ∈ p.2.parents, (lookup cs q).isSome = true := by
  simp [noDanglingB, List.all_eq_true]

theorem branchTargetOK_iff (cs : List (String × Commit)) (v : Option String) :
    branchTargetOK cs v = true ↔ ∀ t, v = some t → (lookup cs t).isSome = true := by
  rcases v with _ | t
  · simp [branchTargetOK]
  · simp [branchTargetOK]

theorem branchesResolveB_iff (bs : List (String × Option String))
    (cs : List (String × Commit)) :
    branchesResolveB bs cs = true ↔
      ∀ p ∈ bs, ∀ t, p.2 = some t → (lookup cs t).isSome = true := by
  simp [branchesResolveB, List.all_eq_true, branchTargetOK_iff]

theorem remoteResolvesB_iff (rs : List (String × String))
    (cs : List (String × Commit)) :
    remoteResolvesB rs cs = true ↔ ∀ p ∈ rs, (lookup cs p.2).isSome = true := by
  simp [remoteResolvesB, List.all_eq_true]

theorem repoInv3B_iff (s : GitState) :
    repoInv3B s = true ↔
      (∀ p ∈ s.commits, ∀ q ∈ p.2.parents, (lookup s.commits q).isSome = true) ∧
      (∀ p ∈ s.branches, ∀ t, p.2 = some t → (lookup s.commits t).isSome = true) ∧
      (∀ p ∈ s.remote, (lookup s.commits p.2).isSome = true) := by
  rw [show repoInv3B s = (noDanglingB s.commits && branchesResolveB s.branches s.commits
    && remoteResolvesB s.remote s.commits) from rfl]
  simp only [Bool.and_eq_true]
  rw [noDanglingB_iff, branchesResolveB_iff, remoteResolvesB_iff]
  constructor
  · rintro ⟨⟨h1, h2⟩, h3⟩
    exact ⟨h1, h2, h3⟩
  · rintro ⟨h1, h2, h3⟩
    exact ⟨⟨h1, h2⟩, h3⟩

theorem repoInv3B_of (s s2 : GitState) (hinv : repoInv3B s = true)
    (hmono : ∀ x, (lookup s.commits x).isSome = true →
      (lookup s2.commits x).isSome = true)
    (hcm : ∀ p ∈ s2.commits, p ∈ s.commits ∨
      ∀ q ∈ p.2.parents, (lookup s2.commits q).isSome = true)
    (hbm : ∀ p ∈ s2.branches, p ∈ s.branches ∨
      ∀ t, p.2 = some t → (lookup s2.commits t).isSome = true)
    (hrm : ∀ p ∈ s2.remote, p ∈ s.remote ∨ (lookup s2.commits p.2).isSome = true) :
    repoInv3B s2 = true := by
  rw [repoInv3B_iff] at hinv ⊢
  obtain ⟨h1, h2, h3⟩ := hinv
  refine ⟨?_, ?_, ?_⟩
  · intro p hp q hq
    rcases hcm p hp with h | h
    · exact hmono q (h1 p h q hq)
    · exact h q hq
  · intro p hp t ht
    rcases hbm p hp with h | h
    · exact hmono t (h2 p h t ht)
    · exact h t ht
  · intro p hp
    rcases hrm p hp with h | h
    · exact hmono p.2 (h3 p h)
    · exact h

theorem inv_generic (s s2 : GitState) (hinv : repoInv3B s = true)
    (hc : s2.commits = s.commits ∨ ∃ k c, s2.commits = insertKV s.commits k c ∧
      ∀ q ∈ c.parents, (lookup s2.commits q).isSome = true)
    (hb : s2.branches = s.branches ∨ ∃ bk t, s2.branches = insertKV s.branches bk t ∧
      ∀ u, t = some u → (lookup s2.commits u).isSome = true)
    (hr : s2.remote = s.remote ∨ ∃ rk rv, s2.remote = insertKV s.remote rk rv ∧
      (lookup s2.commits rv).isSome = true) :
    repoInv3B s2 = true := by
  have hmono : ∀ x, (lookup s.commits x).isSome = true →
      (lookup s2.commits x).isSome = true := by
    rcases hc with hcu | ⟨k, c, hck, _⟩
    · intro x hx; rw [hcu]; exact hx
    · intro x hx; rw [hck]; exact lookup_isSome_insertKV _ _ _ _ hx
  refine repoInv3B_of s s2 hinv hmono ?_ ?_ ?_
  · intro p hp
    rcases hc with hcu | ⟨k, c, hck, hcp⟩
    · rw [hcu] at hp; exact Or.inl hp
    · rw [hck] at hp
      rcases mem_insertKV hp with h | h
      · exact Or.inl h
      · subst h
        exact Or.inr (fun q hq => hcp q hq)
  · intro p hp
    rcases hb with hbu | ⟨bk, t, hbk, hbv⟩
    · rw [hbu] at hp; exact Or.inl hp
    · rw [hbk] at hp
      rcases mem_insertKV hp with h | h
      · exact Or.inl h
      · subst h
        exact Or.inr (fun u hu => hbv u hu)
  · intro p hp
    rcases hr with hru | ⟨rk, rv, hrk, hrv⟩
    · rw [hru] at hp; exact Or.inl hp
    · rw [hrk] at hp
      rcases mem_insertKV hp with h | h
      · exact Or.inl h
      · subst h
        exact Or.inr hrv

theorem commit_parents_valid (s : GitState) (hv : checkValid s = none)
    (k : String) (c : Commit) :
    ∀ q ∈ (match currentSha s with
      | some p => if p = "" then ([] : List String) else [p]
      | none => []),
      (lookup (insertKV s.commits k c) q).isSome = true := by
  intro q hq
  rcases hcur : currentSha s with _ | p
  · rw [hcur] at hq; simp at hq
  · rw [hcur] at hq
    by_cases hp0 : p = ""
    · simp [hp0] at hq
    · simp [hp0] at hq
      rw [hq]
      exact lookup_isSome_insertKV _ _ _ _ (currentSha_lookup_valid s hv p hcur)

theorem inv_commit (s : GitState) (msg sha : String) (now : Nat)
    (hv : checkValid s = none) (hinv : repoInv3B s = true) :
    repoInv3B (commitOp s msg sha now).2 = true := by
  simp only [commitOp]
  split
  · exact hinv
  · split
    · refine inv_generic s _ hinv (Or.inr ⟨sha, _, rfl, ?_⟩) (Or.inl rfl) (Or.inl rfl)
      exact commit_parents_valid s hv sha _
    · refine inv_generic s _ hinv (Or.inr ⟨sha, _, rfl, ?_⟩)
        (Or.inr ⟨headKey s, some sha, rfl, ?_⟩) (Or.inl rfl)
      · exact commit_parents_valid s hv sha _
      · intro u hu
        injection hu with hu
        rw [← hu, lookup_insertKV_self]
        rfl

theorem inv_branch (s : GitState) (name : String)
    (hv : checkValid s = none) (hinv : repoInv3B s = true) :
    repoInv3B (branchOp s name).2 = true := by
  simp only [branchOp]
  split
  · exact hinv
  · split
    · exact hinv
    · split
      · exact hinv
      · refine inv_generic s _ hinv (Or.inl rfl)
          (Or.inr ⟨name, currentSha s, rfl, ?_⟩) (Or.inl rfl)
        exact fun u hu => currentSha_lookup_valid s hv u hu

theorem inv_checkout (s : GitState) (target : String)
    (hinv : repoInv3B s = true) :
    repoInv3B (checkoutOp s target).2 = true := by
  simp only [checkoutOp]
  split
  · exact hinv
  · split
    · exact hinv
    · split
      · exact hinv
      · exact hinv

theorem inv_checkoutNewBranch (s : GitState) (name : String)
    (hv : checkValid s = none) (hinv : repoInv3B s = true) :
    repoInv3B (checkoutNewBranchOp s name).2 = true := by
  simp only [checkoutNewBranchOp]
  split
  · exact hinv
  · split
    · exact hinv
    · refine inv_generic s _ hinv (Or.inl rfl)
        (Or.inr ⟨name, currentSha s, rfl, ?_⟩) (Or.inl rfl)
      exact fun u hu => currentSha_lookup_valid s hv u hu

theorem inv_merge (s : GitState) (src sha : String) (now : Nat)
    (hv : checkValid s = none) (hinv : repoInv3B s = true) :
    repoInv3B (mergeOp s src sha now).2 = true := by
  simp only [mergeOp]
  split
  · exact hinv
  · split
    · exact hinv
    · split
      · exact hinv
      · split
        · exact hinv
        · next srcVal heq =>
          split
          · exact hinv
          · next htr =>
            have htr2 : truthyS srcVal = true := by
              rcases hx : truthyS srcVal with _ | _
              · exact absurd hx htr
              · rfl
            obtain ⟨S0, hS0, _⟩ := truthyS_some srcVal htr2
            have hSval : (lookup s.commits (srcVal.getD "")).isSome = true := by
              rw [hS0]
              exact ((repoInv3B_iff s).mp hinv).2.1 (src, srcVal)
                (lookup_some_mem heq) S0 hS0
            split
            · exact hinv
            · next hcu =>
              have hcu2 : truthyS (currentSha s) = true := by
                rcases hx : truthyS (currentSha s) with _ | _
                · exact absurd hx hcu
                · rfl
              obtain ⟨C0, hC0, _⟩ := truthyS_some (currentSha s) hcu2
              have hCval : (lookup s.commits ((currentSha s).getD "")).isSome = true := by
                rw [hC0]
                exact currentSha_lookup_valid s hv C0 hC0
              split
              · exact hinv
              · split
                · refine inv_generic s _ hinv (Or.inl rfl)
                    (Or.inr ⟨headKey s, some (srcVal.getD ""), rfl, ?_⟩) (Or.inl rfl)
                  intro u hu
                  injection hu with hu
                  rw [← hu]
                  exact hSval
                · refine inv_generic s _ hinv (Or.inr ⟨sha, _, rfl, ?_⟩)
                    (Or.inr ⟨headKey s, some sha, rfl, ?_⟩) (Or.inl rfl)
                  · intro q hq
                    simp only [List.mem_cons, List.mem_singleton] at hq
                    rcases hq with hq | hq | hq
                    · rw [hq]
                      exact lookup_isSome_insertKV _ _ _ _ hCval
                    · rw [hq]
                      exact lookup_isSome_insertKV _ _ _ _ hSval
                    · simp at hq
                  · intro u hu
                    injection hu with hu
                    rw [← hu, lookup_insertKV_self]
                    rfl

theorem inv_rebase (s : GitState) (tgt : String) (supply : Nat → String) (now : Nat)
    (_hv : checkValid s = none) (hinv : repoInv3B s = true) :
    repoInv3B (rebaseOp s tgt supply now).2 = true := by
  simp only [rebaseOp]
  split
  · exact hinv
  · split
    · exact hinv
    · split
      · exact hinv
      · split
        · exact hinv
        · next tv heq =>
          split
          · exact hinv
          · next htv =>
            split
            · exact hinv
            · split
              · exact hinv
              · next hne =>
                have htv2 : truthyS tv = true := by
                  rcases hx : truthyS tv with _ | _
                  · exact absurd hx htv
                  · rfl
                obtain ⟨T0, hT0eq, _⟩ := truthyS_some tv htv2
                have hTval : (lookup s.commits (tv.getD "")).isSome = true := by
                  rw [hT0eq]
                  exact ((repoInv3B_iff s).mp hinv).2.1 (tgt, tv)
                    (lookup_some_mem heq) T0 hT0eq
                have hne2 : getCommitsSince s.commits ((currentSha s).getD "")
                    (getAllAncestors s.commits (tv.getD "")) ≠ [] := by
                  intro h0
                  rw [h0] at hne
                  simp at hne
                refine repoInv3B_of s _ hinv ?_ ?_ ?_ ?_
                · exact fun x hx => replay_lookup_mono s.head now supply _ 0 s.commits
                    (tv.getD "") x hx
                · intro p hp
                  rcases replayAux_mem s.head now supply _ 0 s.commits (tv.getD "") p hp
                    with h | ⟨j, hj, hpe⟩
                  · exact Or.inl h
                  · right
                    intro q hq
                    rw [hpe] at hq
                    simp only [replayCommit, List.mem_singleton] at hq
                    rw [hq]
                    rcases j with _ | j'
                    · simp only [if_pos rfl]
                      exact replay_lookup_mono s.head now supply _ 0 s.commits
                        (tv.getD "") _ hTval
                    · rw [if_neg (by omega), show 0 + (j' + 1) - 1 = 0 + j' by omega]
                      exact replay_supply_isSome s.head now supply _ 0 s.commits
                        (tv.getD "") j' (by omega)
                · intro p hp
                  rcases mem_insertKV hp with h | h
                  · exact Or.inl h
                  · subst h
                    right
                    intro u hu
                    injection hu with hu
                    rw [← hu]
                    rw [replayAux_tip s.head now supply _ 0 s.commits (tv.getD "") hne2]
                    have hlen : (getCommitsSince s.commits ((currentSha s).getD "")
                        (getAllAncestors s.commits (tv.getD ""))).length ≥ 1 := by
                      rcases hx : getCommitsSince s.commits ((currentSha s).getD "")
                          (getAllAncestors s.commits (tv.getD "")) with _ | _
                      · exact absurd hx hne2
                      · simp
                    rw [show 0 + (getCommitsSince s.commits ((currentSha s).getD "")
                        (getAllAncestors s.commits (tv.getD ""))).length - 1 =
                        0 + ((getCommitsSince s.commits ((currentSha s).getD "")
                        (getAllAncestors s.commits (tv.getD ""))).length - 1) by omega]
                    exact replay_supply_isSome s.head now supply _ 0 s.commits
                      (tv.getD "") _ (by omega)
                · intro p hp
                  exact Or.inl hp

theorem inv_cherryPick (s : GitState) (sha newSha : String) (now : Nat)
    (hv : checkValid s = none) (hinv : repoInv3B s = true) :
    repoInv3B (cherryPickOp s sha newSha now).2 = true := by
  simp only [cherryPickOp]
  split
  · exact hinv
  · split
    · exact hinv
    · next hcu =>
      have hcu2 : truthyS (currentSha s) = true := by
        rcases hx : truthyS (currentSha s) with _ | _
        · exact absurd hx hcu
        · rfl
      obtain ⟨C0, hC0, _⟩ := truthyS_some (currentSha s) hcu2
      have hCval : (lookup s.commits ((currentSha s).getD "")).isSome = true := by
        rw [hC0]
        exact currentSha_lookup_valid s hv C0 hC0
      split
      · refine inv_generic s _ hinv (Or.inr ⟨newSha, _, rfl, ?_⟩) (Or.inl rfl)
          (Or.inl rfl)
        intro q hq
        simp only [List.mem_singleton] at hq
        rw [hq]
        exact lookup_isSome_insertKV _ _ _ _ hCval
      · refine inv_generic s _ hinv (Or.inr ⟨newSha, _, rfl, ?_⟩)
          (Or.inr ⟨headKey s, some newSha, rfl, ?_⟩) (Or.inl rfl)
        · intro q hq
          simp only [List.mem_singleton] at hq
          rw [hq]
          exact lookup_isSome_insertKV _ _ _ _ hCval
        · intro u hu
          injection hu with hu
          rw [← hu, lookup_insertKV_self]
          rfl

theorem inv_resetHard (s : GitState) (target : String)
    (hv : checkValid s = none) (hinv : repoInv3B s = true) :
    repoInv3B (resetHardOp s target).2 = true := by
  simp only [resetHardOp]
  split
  · exact hinv
  · split
    · exact hinv
    · split
      · split
        · exact hinv
        · refine inv_generic s _ hinv (Or.inl rfl)
            (Or.inr ⟨headKey s, _, rfl, ?_⟩) (Or.inl rfl)
          intro u hu
          exact walkBack_isSome s.commits ((repoInv3B_iff s).mp hinv).1 _
            (currentSha s) u hu (fun x hx => currentSha_lookup_valid s hv x hx)
      · split
        · refine inv_generic s _ hinv (Or.inl rfl)
            (Or.inr ⟨headKey s, currentSha s, rfl, ?_⟩) (Or.inl rfl)
          exact fun u hu => currentSha_lookup_valid s hv u hu
        · split
          · next m hfind =>
            refine inv_generic s _ hinv (Or.inl rfl)
              (Or.inr ⟨headKey s, some m, rfl, ?_⟩) (Or.inl rfl)
            intro u hu
            injection hu with hu
            rw [← hu]
            exact lookup_isSome_of_mem_keys (List.mem_of_find?_eq_some hfind)
          · split
            · next hex =>
              refine inv_generic s _ hinv (Or.inl rfl)
                (Or.inr ⟨headKey s, some target, rfl, ?_⟩) (Or.inl rfl)
              intro u hu
              injection hu with hu
              rw [← hu]
              exact hex
            · exact hinv

theorem inv_stash (s : GitState) (hinv : repoInv3B s = true) :
    repoInv3B (stashOp s).2 = true := by
  simp only [stashOp]
  split
  · exact hinv
  · split
    · exact hinv
    · exact hinv

theorem inv_stashPop (s : GitState) (hinv : repoInv3B s = true) :
    repoInv3B (stashPopOp s).2 = true := by
  simp only [stashPopOp]
  split
  · exact hinv
  · split
    · exact hinv
    · exact hinv

theorem inv_tag (s : GitState) (name : String) (target : Option String)
    (hinv : repoInv3B s = true) :
    repoInv3B (tagOp s name target).2 = true := by
  simp only [tagOp]
  split
  · exact hinv
  · split
    · exact hinv
    · split
      · exact hinv
      · split
        · exact hinv
        · exact hinv

theorem inv_push (s : GitState) (branchName : Option String)
    (hinv : repoInv3B s = true) :
    repoInv3B (pushOp s branchName).2 = true := by
  simp only [pushOp]
  split
  · exact hinv
  · split
    · exact hinv
    · split
      · exact hinv
      · next shaOpt heq =>
        split
        · exact hinv
        · next htr =>
          have htr2 : truthyS shaOpt = true := by
            rcases hx : truthyS shaOpt with _ | _
            · exact absurd hx htr
            · rfl
          obtain ⟨S0, hS0, _⟩ := truthyS_some shaOpt htr2
          refine inv_generic s _ hinv (Or.inl rfl) (Or.inl rfl)
            (Or.inr ⟨_, shaOpt.getD "", rfl, ?_⟩)
          rw [hS0]
          exact ((repoInv3B_iff s).mp hinv).2.1 (_, shaOpt) (lookup_some_mem heq)
            S0 hS0

theorem inv_pull (s : GitState) (branchName : Option String)
    (hinv : repoInv3B s = true) :
    repoInv3B (pullOp s branchName).2 = true := by
  simp only [pullOp]
  split
  · exact hinv
  · split
    · exact hinv
    · split
      · exact hinv
      · next r heq =>
        split
        · exact hinv
        · split
          · exact hinv
          · refine inv_generic s _ hinv (Or.inl rfl)
              (Or.inr ⟨_, some r, rfl, ?_⟩) (Or.inl rfl)
            intro u hu
            injection hu with hu
            rw [← hu]
            exact ((repoInv3B_iff s).mp hinv).2.2 (_, r) (lookup_some_mem heq)

/-- C9 counterexample: `c9state` satisfies the claimed two-part invariant
(parents and branch targets resolve), but its remote entry points at the
unknown id "zzz9"; `pull()` moves `master` to that id before the post
state check fires, so the public operation returns and leaves the
invariant broken. -/
theorem C9_counterexample_pull_dangling_remote :
    repoInv2B c9state = true ∧
    lookup c9state.commits "zzz9" = none ∧
    isErr (pullC c9state none).1 = true ∧
    repoInv2B (pullC c9state none).2 = false ∧
    lookup (pullC c9state none).2.branches "master" = some (some "zzz9") := by
  decide

/-- C9 (amended): with the invariant strengthened by "every
remote-tracking entry maps to a key of the commit table", every public
mutating operation preserves it.  The two-part invariant alone is not
preserved (see the pull counterexample). -/
theorem C9_invariant_preserved (s : GitState)
    (msg sha name target src tgt pfx : String) (tgtO brO : Option String)
    (supply : Nat → String) (now : Nat)
    (hinv : repoInv3B s = true) :
    repoInv3B (commitC s msg sha now).2 = true ∧
    repoInv3B (branchC s name).2 = true ∧
    repoInv3B (checkoutC s target).2 = true ∧
    repoInv3B (checkoutNewBranchC s name).2 = true ∧
    repoInv3B (mergeC s src sha now).2 = true ∧
    repoInv3B (rebaseC s tgt supply now).2 = true ∧
    repoInv3B (cherryPickC s pfx sha now).2 = true ∧
    repoInv3B (resetHardC s target).2 = true ∧
    repoInv3B (stashC s).2 = true ∧
    repoInv3B (stashPopC s).2 = true ∧
    repoInv3B (tagC s name tgtO).2 = true ∧
    repoInv3B (pushC s brO).2 = true ∧
    repoInv3B (pullC s brO).2 = true := by
  refine ⟨?_, ?_, ?_, ?_, ?_, ?_, ?_, ?_, ?_, ?_, ?_, ?_, ?_⟩
  · exact runChecked_preserve _ s (fun u => repoInv3B u = true) hinv
      (fun hv => inv_commit s msg sha now hv hinv)
  · exact runChecked_preserve _ s (fun u => repoInv3B u = true) hinv
      (fun hv => inv_branch s name hv hinv)
  · exact runChecked_preserve _ s (fun u => repoInv3B u = true) hinv
      (fun _ => inv_checkout s target hinv)
  · exact runChecked_preserve _ s (fun u => repoInv3B u = true) hinv
      (fun hv => inv_checkoutNewBranch s name hv hinv)
  · exact runChecked_preserve _ s (fun u => repoInv3B u = true) hinv
      (fun hv => inv_merge s src sha now hv hinv)
  · exact runChecked_preserve _ s (fun u => repoInv3B u = true) hinv
      (fun hv => inv_rebase s tgt supply now hv hinv)
  · exact runChecked_preserve _ s (fun u => repoInv3B u = true) hinv
      (fun hv => inv_cherryPick s pfx sha now hv hinv)
  · exact runChecked_preserve _ s (fun u => repoInv3B u = true) hinv
      (fun hv => inv_resetHard s target hv hinv)
  · exact runChecked_preserve _ s (fun u => repoInv3B u = true) hinv
      (fun _ => inv_stash s hinv)
  · exact runChecked_preserve _ s (fun u => repoInv3B u = true) hinv
      (fun _ => inv_stashPop s hinv)
  · exact runChecked_preserve _ s (fun u => repoInv3B u = true) hinv
      (fun _ => inv_tag s name tgtO hinv)
  · exact runChecked_preserve _ s (fun u => repoInv3B u = true) hinv
      (fun _ => inv_push s brO hinv)
  · exact runChecked_preserve _ s (fun u => repoInv3B u = true) hinv
      (fun _ => inv_pull s brO hinv)

/-- C9 witness: the preservation theorem applied at a concrete valid
state, projected on the `commit` operation. -/
theorem C9_witness :
    repoInv3B (commitC c9wstate "w2" "qq2" 1).2 = true :=
  (C9_invariant_preserved c9wstate "w2" "qq2" "nb" "HEAD" "master" "master" "qq"
    none none (fun _ => "rr1") 1 (by decide)).1

/-- C10 counterexample: "de" is an ambiguous id prefix in `c10state`
(two commits match), which the claim lists as a precondition violation
that must fail; yet `cherryPick("de")` succeeds and mutates the state. -/
theorem C10_counterexample_ambiguous_reference_not_failing :
    (strStarts "de1" "de" = true ∧ strStarts "de2" "de" = true ∧
      lookup c10state.commits "de1" ≠ none ∧ lookup c10state.commits "de2" ≠ none ∧
      lookup c10state.commits "de" = none) ∧
    isErr (cherryPickC c10state "de" "ee1" 3).1 = false ∧
    (cherryPickC c10state "de" "ee1" 3).2 ≠ c10state := by
  decide

/-- C10 (amended): every precondition violation the code actually detects
— uninitialized repository, unknown reference, duplicate name, detached
HEAD where forbidden, self merge/rebase, empty branch, empty stash, no
current tip — makes the public operation fail and leave the state exactly
as it was.  Ambiguous id prefixes are not detected (first match wins, see
the counterexample). -/
theorem C10_detected_preconditions_fail_cleanly (s : GitState)
    (msg sha name target src tgt pfx b t : String) (tagT : Option String)
    (supply : Nat → String) (now n : Nat) :
    (s.initialized = false → failsClean (commitC s msg sha now) s) ∧
    (s.initialized = false → failsClean (branchC s name) s) ∧
    (s.initialized = false → failsClean (checkoutC s target) s) ∧
    (s.initialized = false → failsClean (checkoutNewBranchC s name) s) ∧
    (s.initialized = false → failsClean (mergeC s src sha now) s) ∧
    (s.initialized = false → failsClean (rebaseC s tgt supply now) s) ∧
    (s.initialized = false → s.commits = [] → failsClean (cherryPickC s pfx sha now) s) ∧
    (s.initialized = false → failsClean (resetHardC s target) s) ∧
    (s.initialized = false → failsClean (stashC s) s) ∧
    (s.initialized = false → failsClean (stashPopC s) s) ∧
    (s.initialized = false → failsClean (tagC s name tagT) s) ∧
    (s.initialized = false → failsClean (pushC s (some b)) s) ∧
    (s.initialized = false → failsClean (pullC s (some b)) s) ∧
    (s.initialized = true → lookup s.branches target = none →
      lookup s.commits target = none → failsClean (checkoutC s target) s) ∧
    (s.initialized = true → (lookup s.branches name).isSome = true →
      failsClean (branchC s name) s) ∧
    (s.initialized = true → lookup s.branches name = none →
      truthyS (currentSha s) = false → failsClean (branchC s name) s) ∧
    (s.initialized = true → (lookup s.branches name).isSome = true →
      failsClean (checkoutNewBranchC s name) s) ∧
    (s.initialized = true → s.detached = true → failsClean (mergeC s src sha now) s) ∧
    (s.initialized = true → s.detached = false → s.head = some src →
      failsClean (mergeC s src sha now) s) ∧
    (s.initialized = true → s.detached = false → s.head ≠ some src →
      lookup s.branches src = none → failsClean (mergeC s src sha now) s) ∧
    (∀ v, s.initialized = true → s.detached = false → s.head ≠ some src →
      lookup s.branches src = some v → truthyS v = false →
      failsClean (mergeC s src sha now) s) ∧
    (∀ v, s.initialized = true → s.detached = false → s.head ≠ some src →
      lookup s.branches src = some v → truthyS v = true →
      truthyS (currentSha s) = false → failsClean (mergeC s src sha now) s) ∧
    (s.initialized = true → s.detached = true → failsClean (rebaseC s tgt supply now) s) ∧
    (s.initialized = true → s.detached = false → s.head = some tgt →
      failsClean (rebaseC s tgt supply now) s) ∧
    (s.initialized = true → s.detached = false → s.head ≠ some tgt →
      lookup s.branches tgt = none → failsClean (rebaseC s tgt supply now) s) ∧
    (∀ v, s.initialized = true → s.detached = false → s.head ≠ some tgt →
      lookup s.branches tgt = some v → truthyS v = false →
      failsClean (rebaseC s tgt supply now) s) ∧
    (∀ v, s.initialized = true → s.detached = false → s.head ≠ some tgt →
      lookup s.branches tgt = some v → truthyS v = true →
      truthyS (currentSha s) = false → failsClean (rebaseC s tgt supply now) s) ∧
    (lookup s.commits pfx = none →
      (keys s.commits).find? (fun k => strStarts k pfx) = none →
      failsClean (cherryPickC s pfx sha now) s) ∧
    ((lookup s.commits pfx).isSome = true → truthyS (currentSha s) = false →
      failsClean (cherryPickC s pfx sha now) s) ∧
    (s.initialized = true → s.detached = true → failsClean (resetHardC s target) s) ∧
    (s.initialized = true → s.detached = false → parseHeadTilde target = some n →
      truthyS (walkBack s.commits (currentSha s) n) = false →
      failsClean (resetHardC s target) s) ∧
    (s.initialized = true → s.detached = false → parseHeadTilde target = none →
      target ≠ "HEAD" → (keys s.commits).find? (fun k => strStarts k target) = none →
      lookup s.commits target = none → failsClean (resetHardC s target) s) ∧
    (s.initialized = true → truthyS (currentSha s) = false → failsClean (stashC s) s) ∧
    (s.initialized = true → s.stash = [] → failsClean (stashPopC s) s) ∧
    (s.initialized = true → truthyS (lookup s.tags name) = true →
      failsClean (tagC s name tagT) s) ∧
    (s.initialized = true → truthyS (lookup s.tags name) = false →
      truthyS (currentSha s) = false → failsClean (tagC s name none) s) ∧
    (s.initialized = true → truthyS (lookup s.tags name) = false → t ≠ "" →
      (keys s.commits).find? (fun k => strStarts k t) = none →
      lookup s.commits t = none → failsClean (tagC s name (some t)) s) ∧
    (s.initialized = true → s.detached = true → failsClean (pushC s none) s) ∧
    (s.initialized = true → b ≠ "" → lookup s.branches b = none →
      failsClean (pushC s (some b)) s) ∧
    (∀ v, s.initialized = true → b ≠ "" → lookup s.branches b = some v →
      truthyS v = false → failsClean (pushC s (some b)) s) ∧
    (s.initialized = true → s.detached = true → failsClean (pullC s none) s) ∧
    (s.initialized = true → b ≠ "" → lookup s.remote b = none →
      failsClean (pullC s (some b)) s) := by
  refine ⟨?_, ?_, ?_, ?_, ?_, ?_, ?_, ?_, ?_, ?_, ?_, ?_, ?_, ?_, ?_, ?_, ?_, ?_, ?_,
    ?_, ?_, ?_, ?_, ?_, ?_, ?_, ?_, ?_, ?_, ?_, ?_, ?_, ?_, ?_, ?_, ?_, ?_, ?_, ?_,
    ?_, ?_, ?_⟩
  · intro h1
    exact runChecked_unchanged_of_rawErr _ s
      (fun _ => ⟨"not a git repository", by simp [commitOp, h1]⟩)
  · intro h1
    exact runChecked_unchanged_of_rawErr _ s
      (fun _ => ⟨"not a git repository", by simp [branchOp, h1]⟩)
  · intro h1
    exact runChecked_unchanged_of_rawErr _ s
      (fun _ => ⟨"not a git repository", by simp [checkoutOp, h1]⟩)
  · intro h1
    exact runChecked_unchanged_of_rawErr _ s
      (fun _ => ⟨"not a git repository", by simp [checkoutNewBranchOp, h1]⟩)
  · intro h1
    exact runChecked_unchanged_of_rawErr _ s
      (fun _ => ⟨"not a git repository", by simp [mergeOp, h1]⟩)
  · intro h1
    exact runChecked_unchanged_of_rawErr _ s
      (fun _ => ⟨"not a git repository", by simp [rebaseOp, h1]⟩)
  · intro h1 h2
    exact runChecked_unchanged_of_rawErr _ s
      (fun _ => ⟨"bad revision", by simp [cherryPickOp, h2, lookup, keys]⟩)
  · intro h1
    exact runChecked_unchanged_of_rawErr _ s
      (fun _ => ⟨"not a git repository", by simp [resetHardOp, h1]⟩)
  · intro h1
    exact runChecked_unchanged_of_rawErr _ s
      (fun _ => ⟨"not a git repository", by simp [stashOp, h1]⟩)
  · intro h1
    exact runChecked_unchanged_of_rawErr _ s
      (fun _ => ⟨"not a git repository", by simp [stashPopOp, h1]⟩)
  · intro h1
    exact runChecked_unchanged_of_rawErr _ s
      (fun _ => ⟨"not a git repository", by simp [tagOp, h1]⟩)
  · intro h1
    exact runChecked_unchanged_of_rawErr _ s
      (fun _ => ⟨"not a git repository", by simp [pushOp, h1]⟩)
  · intro h1
    exact runChecked_unchanged_of_rawErr _ s
      (fun _ => ⟨"not a git repository", by simp [pullOp, h1]⟩)
  · intro h1 h2 h3
    exact runChecked_unchanged_of_rawErr _ s
      (fun _ => ⟨"pathspec did not match any known branch or commit",
        by simp [checkoutOp, h1, h2, h3]⟩)
  · intro h1 h2
    exact runChecked_unchanged_of_rawErr _ s
      (fun _ => ⟨"branch already exists", by simp [branchOp, h1, h2]⟩)
  · intro h1 h2 h3
    exact runChecked_unchanged_of_rawErr _ s
      (fun _ => ⟨"cannot create branch: no commits yet", by simp [branchOp, h1, h2, h3]⟩)
  · intro h1 h2
    exact runChecked_unchanged_of_rawErr _ s
      (fun _ => ⟨"branch already exists", by simp [checkoutNewBranchOp, h1, h2]⟩)
  · intro h1 h2
    exact runChecked_unchanged_of_rawErr _ s
      (fun _ => ⟨"cannot merge in detached HEAD state", by simp [mergeOp, h1, h2]⟩)
  · intro h1 h2 h3
    exact runChecked_unchanged_of_rawErr _ s
      (fun _ => ⟨"cannot merge a branch into itself", by simp [mergeOp, h1, h2, h3]⟩)
  · intro h1 h2 h3 h4
    exact runChecked_unchanged_of_rawErr _ s
      (fun _ => ⟨"branch not found", by simp [mergeOp, h1, h2, h3, h4]⟩)
  · intro v h1 h2 h3 h4 h5
    exact runChecked_unchanged_of_rawErr _ s
      (fun _ => ⟨"branch has no commits", by simp [mergeOp, h1, h2, h3, h4, h5]⟩)
  · intro v h1 h2 h3 h4 h5 h6
    exact runChecked_unchanged_of_rawErr _ s
      (fun _ => ⟨"current branch has no commits", by simp [mergeOp, h1, h2, h3, h4, h5, h6]⟩)
  · intro h1 h2
    exact runChecked_unchanged_of_rawErr _ s
      (fun _ => ⟨"cannot rebase in detached HEAD state", by simp [rebaseOp, h1, h2]⟩)
  · intro h1 h2 h3
    exact runChecked_unchanged_of_rawErr _ s
      (fun _ => ⟨"cannot rebase a branch onto itself", by simp [rebaseOp, h1, h2, h3]⟩)
  · intro h1 h2 h3 h4
    exact runChecked_unchanged_of_rawErr _ s
      (fun _ => ⟨"branch not found", by simp [rebaseOp, h1, h2, h3, h4]⟩)
  · intro v h1 h2 h3 h4 h5
    exact runChecked_unchanged_of_rawErr _ s
      (fun _ => ⟨"branch has no commits", by simp [rebaseOp, h1, h2, h3, h4, h5]⟩)
  · intro v h1 h2 h3 h4 h5 h6
    exact runChecked_unchanged_of_rawErr _ s
      (fun _ => ⟨"current branch has no commits to rebase",
        by simp [rebaseOp, h1, h2, h3, h4, h5, h6]⟩)
  · intro h1 h2
    exact runChecked_unchanged_of_rawErr _ s
      (fun _ => ⟨"bad revision", by simp [cherryPickOp, h1, h2]⟩)
  · intro h1 h2
    exact runChecked_unchanged_of_rawErr _ s
      (fun _ => ⟨"cannot cherry-pick: no commits on current branch",
        by simp [cherryPickOp, h1, h2]⟩)
  · intro h1 h2
    exact runChecked_unchanged_of_rawErr _ s
      (fun _ => ⟨"cannot reset in detached HEAD state", by simp [resetHardOp, h1, h2]⟩)
  · intro h1 h2 h3 h4
    exact runChecked_unchanged_of_rawErr _ s
      (fun _ => ⟨"is not a valid commit", by simp [resetHardOp, h1, h2, h3, h4]⟩)
  · intro h1 h2 h3 h4 h5 h6
    exact runChecked_unchanged_of_rawErr _ s
      (fun _ => ⟨"is not a valid commit SHA", by simp [resetHardOp, h1, h2, h3, h4, h5, h6]⟩)
  · intro h1 h2
    exact runChecked_unchanged_of_rawErr _ s
      (fun _ => ⟨"nothing to stash", by simp [stashOp, h1, h2]⟩)
  · intro h1 h2
    exact runChecked_unchanged_of_rawErr _ s
      (fun _ => ⟨"no stash entries found", by simp [stashPopOp, h1, h2]⟩)
  · intro h1 h2
    exact runChecked_unchanged_of_rawErr _ s
      (fun _ => ⟨"tag already exists", by simp [tagOp, h1, h2]⟩)
  · intro h1 h2 h3
    exact runChecked_unchanged_of_rawErr _ s
      (fun _ => ⟨"no commits to tag", by simp [tagOp, h1, h2, h3]⟩)
  · intro h1 h2 h3 h4 h5
    have ht : truthyS (some t) = true := by simp [truthyS, h3]
    exact runChecked_unchanged_of_rawErr _ s
      (fun _ => ⟨"is not a valid SHA", by simp [tagOp, h1, h2, h3, ht, h4, h5]⟩)
  · intro h1 h2
    exact runChecked_unchanged_of_rawErr _ s
      (fun _ => ⟨"cannot push in detached HEAD state",
        by simp [pushOp, pushPullName, truthyS, h1, h2]⟩)
  · intro h1 h2 h3
    have hb : truthyS (some b) = true := by simp [truthyS, h2]
    exact runChecked_unchanged_of_rawErr _ s
      (fun _ => ⟨"branch not found", by simp [pushOp, pushPullName, h1, h2, hb, h3]⟩)
  · intro v h1 h2 h3 h4
    have hb : truthyS (some b) = true := by simp [truthyS, h2]
    exact runChecked_unchanged_of_rawErr _ s
      (fun _ => ⟨"branch has no commits to push",
        by simp [pushOp, pushPullName, h1, h2, hb, h3, h4]⟩)
  · intro h1 h2
    exact runChecked_unchanged_of_rawErr _ s
      (fun _ => ⟨"cannot pull in detached HEAD state",
        by simp [pullOp, pushPullName, truthyS, h1, h2]⟩)
  · intro h1 h2 h3
    have hb : truthyS (some b) = true := by simp [truthyS, h2]
    exact runChecked_unchanged_of_rawErr _ s
      (fun _ => ⟨"no remote tracking branch",
        by simp [pullOp, pushPullName, h1, h2, hb, h3]⟩)

/-- C10 witness: the amended theorem applied at the uninitialized state,
projected on the commit operation. -/
theorem C10_witness : failsClean (commitC uninitState "m" "s1" 0) uninitState :=
  (C10_detected_preconditions_fail_cleanly uninitState "m" "s1" "nb" "tg" "src"
    "tgt" "pf" "b" "t" none (fun _ => "u1") 0 1).1 (by decide)

end GitViz
